import Mathlib

/-!
Verification of the TRINITI Memory Persistence & Search Subsystem.

This file gives a shallow embedding of the subsystem's code:

* `frontend/src/services/MemorySearchEngine.ts`  (search engine)
* `PersistenceManager` (Enhanced Disk Persistence Manager)
* the synchronous `TRINITIMemorySystem` facade (the one with `prune`)
* the asynchronous `TRINITIMemorySystem` facade (the one with `recordTask`)

JavaScript runtime values that have passed through a JSON round
trip (everything the store holds) are modelled by `JsVal`.  JS numbers
are modelled by `Int`: every number the embedded code paths produce or
compare is an integer (timestamps, durations, counts, byte sizes);
the similarity score of the search engine is the one genuinely rational
quantity and is modelled by `Rat` in `calculateSimilarity`.
`localStorage` is modelled as an association list from string keys to
stored values; since the code always stores `JSON.stringify(v)` and reads
with `JSON.parse`, and stringify-then-parse is the identity on
JSON-representable values, the model stores the parsed value directly.
-/

/-- Model of a JavaScript value after a JSON round trip: null, booleans,
numbers (integral, see the header comment), strings, arrays and objects
(association lists of fields in insertion order). -/
inductive JsVal where
  | null : JsVal
  | bool : Bool → JsVal
  | num  : ℤ → JsVal
  | str  : String → JsVal
  | arr  : List JsVal → JsVal
  | obj  : List (String × JsVal) → JsVal
deriving Repr

mutual

/-- Structural equality test on `JsVal` (used to model the JS `===` /
`Array.prototype.includes` comparisons, which the embedded code only ever
applies to primitive values, where `===` is structural). -/
def JsVal.beq : JsVal → JsVal → Bool
  | .null, .null => true
  | .bool a, .bool b => a == b
  | .num a, .num b => a == b
  | .str a, .str b => a == b
  | .arr a, .arr b => JsVal.beqList a b
  | .obj a, .obj b => JsVal.beqFields a b
  | _, _ => false

/-- Elementwise `JsVal.beq` on lists. -/
def JsVal.beqList : List JsVal → List JsVal → Bool
  | [], [] => true
  | a :: as, b :: bs => JsVal.beq a b && JsVal.beqList as bs
  | _, _ => false

/-- Fieldwise `JsVal.beq` on association lists. -/
def JsVal.beqFields : List (String × JsVal) → List (String × JsVal) → Bool
  | [], [] => true
  | (k, a) :: as, (l, b) :: bs => k == l && JsVal.beq a b && JsVal.beqFields as bs
  | _, _ => false

end

instance : BEq JsVal := ⟨JsVal.beq⟩

/-- Property read `v["k"]` on an object; `none` models the JS value
`undefined` (missing field, or property access on a non-object primitive
or array, none of which throws in JS). -/
def JsVal.getField : JsVal → String → Option JsVal
  | .obj fs, k => fs.lookup k
  | _, _ => none

/-- JS truthiness of a value: `null`, `false`, `0` and `""` are falsy,
everything else (including `[]` and `{}`) is truthy. -/
def JsVal.truthy : JsVal → Bool
  | .null => false
  | .bool b => b
  | .num n => n != 0
  | .str s => s != ""
  | .arr _ => true
  | .obj _ => true

/-- Does `typeof v === 'object'` hold?  In JS this is true for `null`,
arrays and plain objects alike. -/
def JsVal.typeofObject : JsVal → Bool
  | .null => true
  | .arr _ => true
  | .obj _ => true
  | _ => false

/-- Lower-case hexadecimal digit for `n < 16`. -/
def hexDigit (n : ℕ) : Char :=
  if n < 10 then Char.ofNat (48 + n) else Char.ofNat (87 + n)

/-- JSON string escaping of one character, as `JSON.stringify` performs it:
quote, backslash, the named control escapes, and `\u00XX` for the other
control characters. -/
def escapeJsonChar (c : Char) : String :=
  if c = '"' then "\\\""
  else if c = '\\' then "\\\\"
  else if c = '\n' then "\\n"
  else if c = '\t' then "\\t"
  else if c = '\r' then "\\r"
  else if c = Char.ofNat 8 then "\\b"
  else if c = Char.ofNat 12 then "\\f"
  else if c.toNat < 32 then
    "\\u00" ++ String.singleton (hexDigit (c.toNat / 16)) ++ String.singleton (hexDigit (c.toNat % 16))
  else String.singleton c

/-- JSON rendering of a string literal, quotes included. -/
def quoteJson (s : String) : String :=
  "\"" ++ String.join (s.toList.map escapeJsonChar) ++ "\""

mutual

/-- Model of `JSON.stringify` on `JsVal` (integral numbers render in
decimal exactly as JS renders them). -/
def jsonStringify : JsVal → String
  | .null => "null"
  | .bool true => "true"
  | .bool false => "false"
  | .num n => toString n
  | .str s => quoteJson s
  | .arr l => "[" ++ jsonStringifyList l ++ "]"
  | .obj fs => "\x7b" ++ jsonStringifyFields fs ++ "\x7d"

/-- Comma-separated rendering of array elements. -/
def jsonStringifyList : List JsVal → String
  | [] => ""
  | [x] => jsonStringify x
  | x :: y :: xs => jsonStringify x ++ "," ++ jsonStringifyList (y :: xs)

/-- Comma-separated rendering of object fields. -/
def jsonStringifyFields : List (String × JsVal) → String
  | [] => ""
  | [(k, v)] => quoteJson k ++ ":" ++ jsonStringify v
  | (k, v) :: f :: fs => quoteJson k ++ ":" ++ jsonStringify v ++ "," ++ jsonStringifyFields (f :: fs)

end

mutual

/-- JS template-literal/`String()` coercion of a value, used where the code
interpolates a value into a storage key. -/
def jsTemplateStr : JsVal → String
  | .null => "null"
  | .bool true => "true"
  | .bool false => "false"
  | .num n => toString n
  | .str s => s
  | .arr l => jsTemplateStrList l
  | .obj _ => "[object Object]"

/-- Comma-joined coercion of array elements, as `Array.prototype.toString`
produces it. -/
def jsTemplateStrList : List JsVal → String
  | [] => ""
  | [x] => jsTemplateStr x
  | x :: y :: xs => jsTemplateStr x ++ "," ++ jsTemplateStrList (y :: xs)

end

/-- Case-folded list-of-characters view of a string, modelling
`String.prototype.toLowerCase` (locale-independent, characterwise). -/
def jsLower (s : String) : String := s.toLower

/-- Is `needle` a contiguous run at the front of `hay`? -/
def listStartsWith : List Char → List Char → Bool
  | [], _ => true
  | _ :: _, [] => false
  | a :: as, b :: bs => a == b && listStartsWith as bs

/-- Substring containment on character lists. -/
def listHasRun (needle : List Char) : List Char → Bool
  | [] => needle.isEmpty
  | c :: cs => listStartsWith needle (c :: cs) || listHasRun needle cs

/-- Model of `String.prototype.includes`: does `hay` contain `needle` as a
substring? -/
def jsIncludes (hay needle : String) : Bool :=
  listHasRun needle.toList hay.toList

/-- Model of the `localStorage` medium: an association list from string
keys to stored values, in key-insertion order.  Values are kept in parsed
(`JsVal`) form; see the header comment. -/
abbrev Store := List (String × JsVal)

/-- Model of `localStorage.getItem`. -/
def getItem (s : Store) (k : String) : Option JsVal := s.lookup k

/-- Model of `localStorage.setItem`: replaces the value of an existing key
in place, otherwise appends the new key at the end.  (Keys are unique in
`localStorage`; the model replaces the first occurrence.) -/
def setItem (s : Store) (k : String) (v : JsVal) : Store :=
  match s with
  | [] => [(k, v)]
  | (k', v') :: rest => if k' == k then (k, v) :: rest else (k', v') :: setItem rest k v

/-- Model of `localStorage.removeItem`. -/
def removeItem (s : Store) (k : String) : Store :=
  s.filter (fun p => ¬ p.1 == k)

/-- Typed view of `MemoryEntry.metadata` (`types/memory.ts`): `tags` is an
optional field there, and the search engine branches on its presence, so it
is modelled by an `Option`. -/
structure MemoryMetadata where
  success : Bool
  duration : ℤ
  errors : List String
  tags : Option (List String)
  priority : ℤ
deriving Repr, DecidableEq

/-- Typed view of a well-formed `MemoryEntry` (`types/memory.ts`); the
`result` payload is opaque to the store and stays a raw `JsVal`. -/
structure MemoryEntry where
  id : String
  timestamp : ℤ
  task : String
  result : JsVal
  metadata : MemoryMetadata
deriving Repr

/-- The JSON object a typed metadata record serializes to, fields in the
construction order of `record`/`recordTask`; an absent `tags` field is
omitted, as `JSON.stringify` omits `undefined` members. -/
def MemoryMetadata.toJs (m : MemoryMetadata) : JsVal :=
  .obj ([("success", .bool m.success), ("duration", .num m.duration),
         ("errors", .arr (m.errors.map JsVal.str))] ++
        (match m.tags with
         | some ts => [("tags", JsVal.arr (ts.map JsVal.str))]
         | none => []) ++
        [("priority", .num m.priority)])

/-- The JSON object a typed entry serializes to. -/
def MemoryEntry.toJs (e : MemoryEntry) : JsVal :=
  .obj [("id", .str e.id), ("timestamp", .num e.timestamp), ("task", .str e.task),
        ("result", e.result), ("metadata", e.metadata.toJs)]

/-- Rendering of a possibly-missing field value inside a template literal
(`${entry.id}`): a missing field is `undefined` and renders as
`"undefined"`. -/
def jsFieldToStr : Option JsVal → String
  | none => "undefined"
  | some w => jsTemplateStr w

namespace PersistenceManager

/-- The source constant `STORAGE_PREFIX` of `PersistenceManager`. -/
def STORAGE_KEY_STEM : String := "TRINITI_MEMORY_"

/-- The source constant `METADATA_KEY` of `PersistenceManager`. -/
def METADATA_KEY : String := "TRINITI_MEMORY_INDEX"

/-- Model of `PersistenceManager.validateEntry`: the structural validator.
Clause for clause: the candidate is a truthy value of `typeof 'object'`;
`id` is a string; `timestamp` a number; `task` a string; `result` an
object and not `null`; `metadata` an object and not `null` with boolean
`success` and numeric `duration`. -/
def validateEntry (entry : JsVal) : Bool :=
  entry.truthy && entry.typeofObject &&
  (match entry.getField "id" with | some (.str _) => true | _ => false) &&
  (match entry.getField "timestamp" with | some (.num _) => true | _ => false) &&
  (match entry.getField "task" with | some (.str _) => true | _ => false) &&
  (match entry.getField "result" with
   | some .null => false
   | some r => r.typeofObject
   | none => false) &&
  (match entry.getField "metadata" with
   | some .null => false
   | some m => m.typeofObject &&
       (match m.getField "success" with | some (.bool _) => true | _ => false) &&
       (match m.getField "duration" with | some (.num _) => true | _ => false)
   | none => false)

/-- The index-record literal `getMemoryIndex` falls back to when no index
is stored, with `now` standing for `Date.now()`. -/
def defaultIndex (now : ℤ) : JsVal :=
  .obj [("entryIds", .arr []), ("lastUpdated", .num now),
        ("totalEntries", .num 0), ("storageSize", .num 0)]

/-- Model of `getMemoryIndex`: the stored index record, or the default one.
(`JSON.parse` failure cannot occur at the `JsVal` level, since the store
holds parsed values.) -/
def getMemoryIndex (now : ℤ) (s : Store) : JsVal :=
  match getItem s METADATA_KEY with
  | some v => v
  | none => defaultIndex now

/-- Byte size of a stored value, as `new Blob([data]).size` measures it:
the UTF-8 byte length of the serialized string. -/
def entrySize (v : JsVal) : ℤ :=
  Int.ofNat (jsonStringify v).utf8ByteSize

/-- Model of `calculateStorageSize`: sums the sizes of the values stored
under the keys the index enumerates.  A non-iterable `entryIds` makes the
`for..of` throw inside the function's own `try`, which returns `0`; a
string `entryIds` is iterated characterwise (JS strings are iterable). -/
def calculateStorageSize (now : ℤ) (s : Store) : ℤ :=
  match (getMemoryIndex now s).getField "entryIds" with
  | some (.arr ids) =>
      (ids.map (fun idv =>
        match getItem s (STORAGE_KEY_STEM ++ jsTemplateStr idv) with
        | some data => entrySize data
        | none => 0)).foldl (· + ·) 0
  | some (.str cs) =>
      (cs.toList.map (fun c =>
        match getItem s (STORAGE_KEY_STEM ++ String.singleton c) with
        | some data => entrySize data
        | none => 0)).foldl (· + ·) 0
  | _ => 0

/-- Field assignment `v[k] = w` on an object (replace in place, or add the
new field at the end); assignment targets on the embedded paths are always
objects. -/
def jsSetField : JsVal → String → JsVal → JsVal
  | .obj fs, k, v =>
      if fs.any (fun p => p.1 == k) then .obj (fs.map (fun p => if p.1 == k then (k, v) else p))
      else .obj (fs ++ [(k, v)])
  | w, _, _ => w

/-- Model of `index.totalEntries++` as the value that ends up stored:
incrementing a non-number gives `NaN`, which `JSON.stringify` serializes
as `null`.  (ToNumber coercion of numeric strings is not modelled; this
field is only ever written as a number by the embedded code.) -/
def jsIncr : Option JsVal → JsVal
  | some (.num n) => .num (n + 1)
  | _ => .null

/-- Model of `updateMemoryIndex`.  Returns the store after the call and
whether it completed (`false` models the call throwing, which `saveEntry`
re-throws after logging).  Mutation order follows the source: push the id
and bump `totalEntries` when the id is new, set `lastUpdated` to
`Date.now()` (the `now` argument), set `storageSize` to
`calculateStorageSize()` (computed against the store before the index
write, as in the source), then write the index record.  When `entryIds`
is not an array, `.includes`/`.push` throw — except that a string
`entryIds` has a working `.includes` (substring test on the coerced id)
and only throws on `.push`. -/
def updateMemoryIndex (now : ℤ) (entryId : JsVal) (s : Store) : Store × Bool :=
  let index := getMemoryIndex now s
  match index.getField "entryIds" with
  | some (.arr ids) =>
      let index' :=
        if ids.contains entryId then index
        else jsSetField (jsSetField index "entryIds" (.arr (ids ++ [entryId])))
              "totalEntries" (jsIncr (index.getField "totalEntries"))
      let index'' := jsSetField (jsSetField index' "lastUpdated" (.num now))
              "storageSize" (.num (calculateStorageSize now s))
      (setItem s METADATA_KEY index'', true)
  | some (.str cs) =>
      if jsIncludes cs (jsTemplateStr entryId) then
        let index'' := jsSetField (jsSetField index "lastUpdated" (.num now))
                "storageSize" (.num (calculateStorageSize now s))
        (setItem s METADATA_KEY index'', true)
      else (s, false)
  | _ => (s, false)

/-- Model of `saveEntry`.  Returns the store after the call and whether it
completed without throwing: validation failure throws before any write;
`encryptEntry` is `JSON.stringify` (identity at the `JsVal` level); the
entry is written under `STORAGE_PREFIX + entry.id`; a failing
`updateMemoryIndex` is re-thrown after the entry write has already
happened. -/
def saveEntry (now : ℤ) (entry : JsVal) (s : Store) : Store × Bool :=
  if ¬ validateEntry entry then (s, false)
  else
    let entryKey := STORAGE_KEY_STEM ++ jsFieldToStr (entry.getField "id")
    let s' := setItem s entryKey entry
    updateMemoryIndex now ((entry.getField "id").getD .null) s'

/-- Model of `retrieveEntry`: read the stored value under the entry key
(`null` when absent — the `!encryptedData` test only fires for a missing
key, since every serialized string is truthy), `decryptEntry` it
(`JSON.parse`, identity at the `JsVal` level), and return it only if it
passes `validateEntry`. -/
def retrieveEntry (entryId : String) (s : Store) : Option JsVal :=
  let entryKey := STORAGE_KEY_STEM ++ entryId
  match getItem s entryKey with
  | none => none
  | some encryptedData =>
      if validateEntry encryptedData then some encryptedData else none

/-- Model of `retrieveEntries`: walk the index's id list, keeping the
entries whose individual `retrieveEntry` succeeds.  A non-iterable
`entryIds` makes the `for..of` throw; the surrounding `catch` returns
`[]`.  A string `entryIds` is iterated characterwise. -/
def retrieveEntries (now : ℤ) (s : Store) : List JsVal :=
  match (getMemoryIndex now s).getField "entryIds" with
  | some (.arr ids) => ids.filterMap (fun idv => retrieveEntry (jsTemplateStr idv) s)
  | some (.str cs) => cs.toList.filterMap (fun c => retrieveEntry (String.singleton c) s)
  | _ => []

end PersistenceManager

/-- Stable insertion-sort model (integer comparator) of
`Array.prototype.sort`: elements are processed left to right, and each is
moved ahead of exactly those earlier elements `y` with `cmp y x > 0`.
For a consistent comparator this is the stable sort the ECMAScript
specification prescribes. -/
def jsSortInsertI {α : Type} (cmp : α → α → ℤ) (x : α) : List α → List α
  | [] => [x]
  | y :: ys => if cmp y x > 0 then x :: y :: ys else y :: jsSortInsertI cmp x ys

/-- Stable sort by an integer comparator (see `jsSortInsertI`). -/
def jsSortI {α : Type} (cmp : α → α → ℤ) (l : List α) : List α :=
  l.foldl (fun acc y => jsSortInsertI cmp y acc) []

/-- Stable insertion-sort model with a rational comparator (the similarity
comparator returns differences of rational scores). -/
def jsSortInsertQ {α : Type} (cmp : α → α → ℚ) (x : α) : List α → List α
  | [] => [x]
  | y :: ys => if cmp y x > 0 then x :: y :: ys else y :: jsSortInsertQ cmp x ys

/-- Stable sort by a rational comparator (see `jsSortInsertQ`). -/
def jsSortQ {α : Type} (cmp : α → α → ℚ) (l : List α) : List α :=
  l.foldl (fun acc y => jsSortInsertQ cmp y acc) []

/-- Model of `.slice(0, n)` for an integral bound: a negative bound counts
from the end of the list, clamped at zero. -/
def jsSlice0 {α : Type} (n : ℤ) (l : List α) : List α :=
  if n < 0 then l.take (l.length - min l.length n.natAbs) else l.take n.toNat

namespace MemorySearchEngine

/-- The `sortBy` union type of `SearchOptions`. -/
inductive SortKey where
  | timestamp : SortKey
  | duration : SortKey
  | relevance : SortKey
deriving Repr, DecidableEq

/-- The `sortOrder` union type of `SearchOptions`. -/
inductive SortOrder where
  | asc : SortOrder
  | desc : SortOrder
deriving Repr, DecidableEq

/-- The `timeframe` option; the source field `end` is called `stop` here
(`end` is a Lean keyword). -/
structure Timeframe where
  start : Option ℤ
  stop : Option ℤ
deriving Repr

/-- The `SearchOptions` record; every field is optional. -/
structure SearchOptions where
  query : Option String
  timeframe : Option Timeframe
  successOnly : Option Bool
  tags : Option (List String)
  minDuration : Option ℤ
  maxDuration : Option ℤ
  limit : Option ℤ
  sortBy : Option SortKey
  sortOrder : Option SortOrder
deriving Repr

/-- The options value `{}` (all fields absent). -/
def noOptions : SearchOptions :=
  ⟨none, none, none, none, none, none, none, none, none⟩

/-- The `SearchResult` record returned by `search`; `suggestions` is
`none` exactly when the field is omitted (the `catch` branch). -/
structure SearchResult where
  entries : List MemoryEntry
  totalCount : ℕ
  searchTime : ℤ
  filters : SearchOptions
  suggestions : Option (List String)
deriving Repr

/-- Model of `searchInResult`: a string result is searched directly, an
object result through its `JSON.stringify` rendering; `null` fails the
`result !== null` test and primitives fail the `typeof` tests.  The query
argument arrives already lower-cased, as at the call sites. -/
def searchInResult (result : JsVal) (query : String) : Bool :=
  match result with
  | .str s => jsIncludes (jsLower s) query
  | .arr _ => jsIncludes (jsLower (jsonStringify result)) query
  | .obj _ => jsIncludes (jsLower (jsonStringify result)) query
  | _ => false

/-- Model of `matchesTextQuery`: case-insensitive substring match against
the task text, the result payload, and each tag. -/
def matchesTextQuery (entry : MemoryEntry) (query : String) : Bool :=
  let queryLower := jsLower query
  jsIncludes (jsLower entry.task) queryLower ||
  searchInResult entry.result queryLower ||
  (match entry.metadata.tags with
   | some tags => tags.any (fun tag => jsIncludes (jsLower tag) queryLower)
   | none => false)

/-- Model of `matchTimeframe`.  A bound equal to `0` is falsy in JS, so
`(!start || ...)` disables that bound. -/
def matchTimeframe (entry : MemoryEntry) (timeframe : Option Timeframe) : Bool :=
  match timeframe with
  | none => true
  | some tf =>
      (match tf.start with
       | none => true
       | some s => s == 0 || decide (entry.timestamp ≥ s)) &&
      (match tf.stop with
       | none => true
       | some e => e == 0 || decide (entry.timestamp ≤ e))

/-- Model of `matchTags`: an entry with no `tags` field fails; otherwise
every required tag must be contained in the entry's tags (AND semantics). -/
def matchTags (entry : MemoryEntry) (requiredTags : List String) : Bool :=
  match entry.metadata.tags with
  | none => false
  | some tags => requiredTags.all (fun tag => tags.contains tag)

/-- Model of `matchDuration`.  `(minDuration && duration < minDuration)`:
a bound of `0` is falsy and disables the test. -/
def matchDuration (entry : MemoryEntry) (minDuration maxDuration : Option ℤ) : Bool :=
  let duration := entry.metadata.duration
  if (match minDuration with | some m => m != 0 && decide (duration < m) | none => false)
  then false
  else if (match maxDuration with | some m => m != 0 && decide (duration > m) | none => false)
  then false
  else true

/-- The comparator body of `sortResults` before the order flip:
`timestamp` and `duration` compare by difference; `relevance` is the
source's heuristic `b.metadata.success ? 1 : -1`, which ignores `a`. -/
def sortComparison (sb : SortKey) (a b : MemoryEntry) : ℤ :=
  match sb with
  | .timestamp => a.timestamp - b.timestamp
  | .duration => a.metadata.duration - b.metadata.duration
  | .relevance => if b.metadata.success then 1 else -1

/-- Model of `sortResults`: identity when `sortBy` is absent, otherwise a
stable sort by the comparator, negated for `'desc'` (the default order). -/
def sortResults (results : List MemoryEntry) (sortBy : Option SortKey)
    (sortOrder : SortOrder) : List MemoryEntry :=
  match sortBy with
  | none => results
  | some sb =>
      jsSortI (fun a b =>
        let comparison := sortComparison sb a b
        match sortOrder with
        | .asc => comparison
        | .desc => -comparison) results

/-- Insertion into a JS `Set`-like accumulator: append unless present. -/
def addSet (acc : List String) (s : String) : List String :=
  if acc.contains s then acc else acc ++ [s]

/-- Model of `getSuggestions`: task texts then tag strings containing the
query (case-insensitively), deduplicated in insertion order, first ten. -/
def getSuggestions (memoryEntries : List MemoryEntry) (query : String) : List String :=
  if query == "" || decide (query.length < 2) then []
  else
    let queryLower := jsLower query
    let fromTasks := memoryEntries.foldl (fun acc e =>
      if jsIncludes (jsLower e.task) queryLower then addSet acc e.task else acc) []
    let withTags := memoryEntries.foldl (fun acc e =>
      match e.metadata.tags with
      | some tags => tags.foldl (fun acc2 tag =>
          if jsIncludes (jsLower tag) queryLower then addSet acc2 tag else acc2) acc
      | none => acc) fromTasks
    withTags.take 10

/-- Model of `generateSuggestions`: empty without a query.  (An empty
string query is falsy; `getSuggestions` returns `[]` for it anyway.) -/
def generateSuggestions (memoryEntries : List MemoryEntry) (query : Option String) : List String :=
  match query with
  | none => []
  | some q => getSuggestions memoryEntries q

/-- The filter callback of `search`: the five predicates are computed per
entry and conjoined exactly as in the source.  `!options.query` is falsy
for an absent or empty query; `!options.tags || options.tags.length === 0`
disables the tag filter for an absent or empty tag list. -/
def matchesOptions (options : SearchOptions) (entry : MemoryEntry) : Bool :=
  let textMatch := match options.query with
    | none => true
    | some q => q == "" || matchesTextQuery entry q
  let timeframeMatch := matchTimeframe entry options.timeframe
  let successMatch := match options.successOnly with
    | none => true
    | some b => entry.metadata.success == b
  let tagMatch := match options.tags with
    | none => true
    | some ts => ts.isEmpty || matchTags entry ts
  let durationMatch := matchDuration entry options.minDuration options.maxDuration
  textMatch && timeframeMatch && successMatch && tagMatch && durationMatch

/-- Model of `MemorySearchEngine.search` on a well-typed working set.  On
such a working set no step of the body can throw, so the `catch` branch
is never taken (the untyped runtime behaviour including the `catch` is
modelled in the `SearchEngineJs` namespace).  `elapsed` stands for the
measured `performance.now()` difference returned as `searchTime`. -/
def search (memoryEntries : List MemoryEntry) (options : SearchOptions)
    (elapsed : ℤ) : SearchResult :=
  let results := memoryEntries.filter (matchesOptions options)
  let sorted := sortResults results options.sortBy (options.sortOrder.getD .desc)
  let limited := match options.limit with
    | some l => if l > 0 then jsSlice0 l sorted else sorted
    | none => sorted
  { entries := limited, totalCount := limited.length, searchTime := elapsed,
    filters := options,
    suggestions := some (generateSuggestions memoryEntries options.query) }

/-- Model of `levenshteinDistance`: the classic edit-distance recurrence
the source's dynamic-programming table `dp[i][j]` satisfies, with
`dp[i][0] = i`, `dp[0][j] = j` and the `deletion/insertion/substitution`
minimum; `levenshteinDistance xs ys = dp[xs.length][ys.length]`. -/
def levenshteinDistance : List Char → List Char → ℕ
  | [], ys => ys.length
  | x :: xs, [] => (x :: xs).length
  | x :: xs, y :: ys =>
    min (levenshteinDistance xs (y :: ys) + 1)
      (min (levenshteinDistance (x :: xs) ys + 1)
        (levenshteinDistance xs ys + (if x = y then 0 else 1)))
termination_by xs ys => xs.length + ys.length

/-- Model of `calculateSimilarity`: one minus the edit distance of the
lower-cased strings divided by the longer original length, and `1` when
both strings are empty.  (JS `.length` counts UTF-16 units; the model
counts characters, which agrees on the Basic Multilingual Plane.) -/
def calculateSimilarity (str1 str2 : String) : ℚ :=
  let editDistance := levenshteinDistance (jsLower str1).toList (jsLower str2).toList
  let maxLength := max str1.length str2.length
  if maxLength = 0 then 1 else 1 - (editDistance : ℚ) / (maxLength : ℚ)

/-- Model of `findMatchedTerms`: lower-cased whitespace-delimited tokens of
length `> 2` occurring in both strings, deduplicated in first-occurrence
order.  (The JS regex split `/\s+/` and Lean's characterwise split differ
only in empty segments, which the length filter drops.) -/
def findMatchedTerms (str1 str2 : String) : List String :=
  let words1 := (jsLower str1).split (fun c => c.isWhitespace)
  let words2 := (jsLower str2).split (fun c => c.isWhitespace)
  let matched := words1.foldl (fun acc w1 =>
    words2.foldl (fun acc2 w2 =>
      if w1 == w2 && decide (w1.length > 2) then acc2 ++ [w1] else acc2) acc) []
  matched.foldl addSet []

/-- The `SimilarityResult` record of `findSimilarTasks`. -/
structure SimilarityResult where
  entry : MemoryEntry
  similarity : ℚ
  matchedTerms : List String
deriving Repr

/-- Model of `findSimilarTasks`: keep the entries whose similarity reaches
the threshold, sort by descending similarity (stable), truncate to
`limit`.  The source defaults (`threshold = 0.7`, `limit = 10`) are passed
explicitly by callers of the model. -/
def findSimilarTasks (memoryEntries : List MemoryEntry) (task : String)
    (threshold : ℚ) (limit : ℤ) : List SimilarityResult :=
  let results := memoryEntries.filterMap (fun entry =>
    let similarity := calculateSimilarity entry.task task
    if similarity ≥ threshold then
      some { entry := entry, similarity := similarity,
             matchedTerms := findMatchedTerms entry.task task }
    else none)
  let sorted := jsSortQ (fun a b => b.similarity - a.similarity) results
  jsSlice0 limit sorted

end MemorySearchEngine

namespace SearchEngineJs

open MemorySearchEngine (SearchOptions SortKey SortOrder Timeframe)

/-- Property access `v.k` on an untyped value: throws (`error`) when the
base is `null`; otherwise yields the field, or `undefined` (`none`) for a
non-object base or a missing field. -/
def getProp (v : JsVal) (k : String) : Except Unit (Option JsVal) :=
  match v with
  | .null => .error ()
  | .obj fs => .ok (fs.lookup k)
  | _ => .ok none

/-- Property access whose base may itself be `undefined` (which throws). -/
def getPropOf (v : Option JsVal) (k : String) : Except Unit (Option JsVal) :=
  match v with
  | none => .error ()
  | some w => getProp w k

/-- ToNumber view of an operand in a relational comparison: numbers pass
through, `null` coerces to `0`, booleans to `0`/`1`; `undefined`, strings
and objects give `none`, making the comparison false like a `NaN`
comparison.  (Numeric-string coercion is not modelled; no embedded path
compares numeric strings.) -/
def jsNumOf : Option JsVal → Option ℤ
  | some (.num n) => some n
  | some .null => some 0
  | some (.bool true) => some 1
  | some (.bool false) => some 0
  | _ => none

/-- `v >= bound` with NaN-style failure for non-numeric `v`. -/
def jsGE (v : Option JsVal) (bound : ℤ) : Bool :=
  match jsNumOf v with | some n => decide (n ≥ bound) | none => false

/-- `v <= bound` with NaN-style failure for non-numeric `v`. -/
def jsLE (v : Option JsVal) (bound : ℤ) : Bool :=
  match jsNumOf v with | some n => decide (n ≤ bound) | none => false

/-- `v < bound` with NaN-style failure for non-numeric `v`. -/
def jsLT (v : Option JsVal) (bound : ℤ) : Bool :=
  match jsNumOf v with | some n => decide (n < bound) | none => false

/-- `v > bound` with NaN-style failure for non-numeric `v`. -/
def jsGT (v : Option JsVal) (bound : ℤ) : Bool :=
  match jsNumOf v with | some n => decide (n > bound) | none => false

/-- Tag loop of `matchesTextQuery` over an array of tag values:
`tag.toLowerCase()` throws on a non-string element. -/
def tagsAnyJs (tags : List JsVal) (queryLower : String) : Except Unit Bool :=
  match tags with
  | [] => .ok false
  | .str tag :: ts =>
      if jsIncludes (jsLower tag) queryLower then .ok true else tagsAnyJs ts queryLower
  | _ :: _ => .error ()

/-- Untyped `matchesTextQuery`: `entry.task.toLowerCase()` throws unless
`task` is a string; the result scan cannot throw; the tag loop throws on
non-string elements; a truthy non-iterable `tags` makes `for..of` throw
(a string `tags` is iterated characterwise). -/
def matchesTextQueryJs (entry : JsVal) (query : String) : Except Unit Bool := do
  let queryLower := jsLower query
  let task? ← getProp entry "task"
  match task? with
  | some (.str task) =>
      if jsIncludes (jsLower task) queryLower then return true
      else
        let result? ← getProp entry "result"
        if (match result? with
            | some r => MemorySearchEngine.searchInResult r queryLower
            | none => false) then return true
        else
          let metadata? ← getProp entry "metadata"
          let tags? ← getPropOf metadata? "tags"
          match tags? with
          | none => return false
          | some tv =>
              if ¬ tv.truthy then return false
              else match tv with
                | .arr tags => tagsAnyJs tags queryLower
                | .str cs => return (cs.toList.any (fun c =>
                    jsIncludes (jsLower (String.singleton c)) queryLower))
                | _ => .error ()
  | _ => .error ()

/-- Untyped `matchTimeframe`, short-circuits included: `entry.timestamp`
is only read when a bound is truthy, and not at all without a timeframe. -/
def matchTimeframeJs (entry : JsVal) (timeframe : Option Timeframe) : Except Unit Bool := do
  match timeframe with
  | none => return true
  | some tf =>
      let left ← (match tf.start with
        | none => pure true
        | some s =>
            if s == 0 then pure true
            else do
              let ts? ← getProp entry "timestamp"
              pure (jsGE ts? s))
      if ¬ left then return false
      else match tf.stop with
        | none => return true
        | some e =>
            if e == 0 then return true
            else do
              let ts? ← getProp entry "timestamp"
              return (jsLE ts? e)

/-- Untyped success filter: `entry.metadata.success === options.successOnly`;
reading `.success` on a missing `metadata` throws; strict equality against
a boolean fails for every non-boolean value. -/
def successMatchJs (entry : JsVal) (successOnly : Option Bool) : Except Unit Bool := do
  match successOnly with
  | none => return true
  | some b =>
      let metadata? ← getProp entry "metadata"
      let success? ← getPropOf metadata? "success"
      return (match success? with
              | some (.bool sb) => sb == b
              | _ => false)

/-- Untyped `matchTags`: falsy `tags` fails; `.includes` works on arrays
and (as a substring test) on strings, and throws on other truthy values. -/
def matchTagsJs (entry : JsVal) (requiredTags : List String) : Except Unit Bool := do
  let metadata? ← getProp entry "metadata"
  let tags? ← getPropOf metadata? "tags"
  match tags? with
  | none => return false
  | some tv =>
      if ¬ tv.truthy then return false
      else match tv with
        | .arr tags => return (requiredTags.all (fun tag => tags.contains (JsVal.str tag)))
        | .str cs => return (requiredTags.all (fun tag => jsIncludes cs tag))
        | _ => .error ()

/-- Untyped `matchDuration`: `entry.metadata.duration` is read
unconditionally (this is the predicate that throws on a malformed entry
even when no option is set); falsy bounds disable their tests. -/
def matchDurationJs (entry : JsVal) (minD maxD : Option ℤ) : Except Unit Bool := do
  let metadata? ← getProp entry "metadata"
  let duration? ← getPropOf metadata? "duration"
  if (match minD with | some m => m != 0 && jsLT duration? m | none => false) then return false
  else if (match maxD with | some m => m != 0 && jsGT duration? m | none => false) then return false
  else return true

/-- Untyped filter callback of `search`: the five predicates are computed
in source order and conjoined. -/
def entryMatchesJs (options : SearchOptions) (entry : JsVal) : Except Unit Bool := do
  let textMatch ← (match options.query with
    | none => pure true
    | some q => if q == "" then pure true else matchesTextQueryJs entry q)
  let timeframeMatch ← matchTimeframeJs entry options.timeframe
  let successMatch ← successMatchJs entry options.successOnly
  let tagMatch ← (match options.tags with
    | none => pure true
    | some ts => if ts.isEmpty then pure true else matchTagsJs entry ts)
  let durationMatch ← matchDurationJs entry options.minDuration options.maxDuration
  return textMatch && timeframeMatch && successMatch && tagMatch && durationMatch

/-- `Array.prototype.filter` with a throwing callback. -/
def filterJs (options : SearchOptions) : List JsVal → Except Unit (List JsVal)
  | [] => .ok []
  | v :: vs => do
      let b ← entryMatchesJs options v
      let rest ← filterJs options vs
      return if b then v :: rest else rest

/-- Untyped comparator body of `sortResults`; subtraction coerces like the
relational operators, and a `NaN` comparator value is treated as `0` by
the sort (ECMAScript `SortCompare`). -/
def jsSubNum (x y : Option JsVal) : ℤ :=
  match jsNumOf x, jsNumOf y with
  | some a, some b => a - b
  | _, _ => 0

/-- Untyped `sortComparison`: field reads can throw on malformed
entries. -/
def sortComparisonJs (sb : SortKey) (a b : JsVal) : Except Unit ℤ := do
  match sb with
  | .timestamp => do
      let ta ← getProp a "timestamp"
      let tb ← getProp b "timestamp"
      return jsSubNum ta tb
  | .duration => do
      let ma ← getProp a "metadata"
      let da ← getPropOf ma "duration"
      let mb ← getProp b "metadata"
      let db ← getPropOf mb "duration"
      return jsSubNum da db
  | .relevance => do
      let mb ← getProp b "metadata"
      let sb? ← getPropOf mb "success"
      return (if (match sb? with | some w => w.truthy | none => false) then 1 else -1)

/-- The comparator passed to the sort, order flip included. -/
def sortCmpJs (sb : SortKey) (ord : SortOrder) (a b : JsVal) : Except Unit ℤ := do
  let c ← sortComparisonJs sb a b
  return (match ord with | .asc => c | .desc => -c)

/-- Monadic insertion step of the sort model (a throwing comparator
propagates out of `Array.prototype.sort`). -/
def jsSortInsertM (cmp : JsVal → JsVal → Except Unit ℤ) (x : JsVal) :
    List JsVal → Except Unit (List JsVal)
  | [] => .ok [x]
  | y :: ys => do
      let c ← cmp y x
      if c > 0 then return (x :: y :: ys)
      else do
        let r ← jsSortInsertM cmp x ys
        return (y :: r)

/-- Monadic stable-sort model with a throwing comparator. -/
def jsSortM (cmp : JsVal → JsVal → Except Unit ℤ) (l : List JsVal) :
    Except Unit (List JsVal) :=
  l.foldlM (fun acc y => jsSortInsertM cmp y acc) []

/-- Task pass of the untyped `getSuggestions`; throws on a non-string
`task`. -/
def suggestTasksJs (queryLower : String) (acc : List String) :
    List JsVal → Except Unit (List String)
  | [] => .ok acc
  | v :: vs => do
      let task? ← getProp v "task"
      match task? with
      | some (.str t) =>
          suggestTasksJs queryLower
            (if jsIncludes (jsLower t) queryLower then MemorySearchEngine.addSet acc t else acc) vs
      | _ => .error ()

/-- Tag values of one entry, collected as in the tag pass: non-truthy
`tags` contributes nothing, arrays iterate elementwise (throwing on
non-string elements), strings characterwise, other truthy values throw. -/
def entryTagStrs (tv : Option JsVal) : Except Unit (List String) :=
  match tv with
  | none => .ok []
  | some v =>
      if ¬ v.truthy then .ok []
      else match v with
        | .arr tags =>
            tags.foldlM (fun acc t =>
              match t with
              | .str tag => .ok (acc ++ [tag])
              | _ => .error ()) []
        | .str cs => .ok (cs.toList.map String.singleton)
        | _ => .error ()

/-- Tag pass of the untyped `getSuggestions`. -/
def suggestTagsJs (queryLower : String) (acc : List String) :
    List JsVal → Except Unit (List String)
  | [] => .ok acc
  | v :: vs => do
      let metadata? ← getProp v "metadata"
      let tags? ← getPropOf metadata? "tags"
      let strs ← entryTagStrs tags?
      let acc' := strs.foldl (fun a tag =>
        if jsIncludes (jsLower tag) queryLower then MemorySearchEngine.addSet a tag else a) acc
      suggestTagsJs queryLower acc' vs

/-- Untyped `getSuggestions`. -/
def getSuggestionsJs (memoryEntries : List JsVal) (query : String) :
    Except Unit (List String) := do
  if query == "" || decide (query.length < 2) then return []
  else do
    let fromTasks ← suggestTasksJs (jsLower query) [] memoryEntries
    let withTags ← suggestTagsJs (jsLower query) fromTasks memoryEntries
    return withTags.take 10

/-- Everything inside the `try` block of `search`: filter, sort, limit,
suggestions. -/
def searchBodyJs (memoryEntries : List JsVal) (options : SearchOptions) :
    Except Unit (List JsVal × List String) := do
  let results ← filterJs options memoryEntries
  let sorted ← (match options.sortBy with
    | none => pure results
    | some sb => jsSortM (sortCmpJs sb (options.sortOrder.getD .desc)) results)
  let limited := match options.limit with
    | some l => if l > 0 then jsSlice0 l sorted else sorted
    | none => sorted
  let suggestions ← (match options.query with
    | none => pure []
    | some q => getSuggestionsJs memoryEntries q)
  return (limited, suggestions)

/-- The `SearchResult` of the untyped model; `suggestions = none` models
the omitted field of the `catch` result. -/
structure SearchResultJs where
  entries : List JsVal
  totalCount : ℕ
  searchTime : ℤ
  filters : SearchOptions
  suggestions : Option (List String)
deriving Repr

/-- Model of `search` over an untyped working set, `try/catch` included:
a successful body yields its entries with their count and the
suggestions; any thrown error is caught and degraded to the empty result
carrying the measured elapsed time. -/
def searchJs (memoryEntries : List JsVal) (options : SearchOptions)
    (elapsed : ℤ) : SearchResultJs :=
  match searchBodyJs memoryEntries options with
  | .ok (limited, suggestions) =>
      { entries := limited, totalCount := limited.length, searchTime := elapsed,
        filters := options, suggestions := some suggestions }
  | .error _ =>
      { entries := [], totalCount := 0, searchTime := elapsed,
        filters := options, suggestions := none }

end SearchEngineJs

namespace MemorySystemSync

/-- The source constant `STORAGE_KEY_PREFIX` of the synchronous
`TRINITIMemorySystem` (the facade with `prune`). -/
def STORAGE_KEY_STEM : String := "triniti_memory_"

/-- Facade state: the in-memory working set (a `Map<string, MemoryEntry>`
in insertion order) and the disk copy. -/
structure MemState where
  storage : List (String × MemoryEntry)
  disk : Store
deriving Repr

/-- A fresh facade over an empty medium. -/
def initState : MemState := ⟨[], []⟩

/-- `Map.prototype.set`: replace the value of an existing key in place,
otherwise append.  (Keys are unique in a `Map`; the model replaces the
first occurrence.) -/
def mapSet (m : List (String × MemoryEntry)) (k : String) (v : MemoryEntry) :
    List (String × MemoryEntry) :=
  match m with
  | [] => [(k, v)]
  | (k', v') :: rest => if k' == k then (k, v) :: rest else (k', v') :: mapSet rest k v

/-- Model of `extractErrors`: for an object result, collect the values of
the keys `error`, `errors`, `message`, `msg` that are strings, in that
order; everything else yields no errors.  (`Error` instances do not
survive a JSON round trip and are not representable in `JsVal`.) -/
def extractErrors (result : JsVal) : List String :=
  match result with
  | .obj _ =>
      ["error", "errors", "message", "msg"].filterMap (fun key =>
        match result.getField key with
        | some (.str s) => some s
        | _ => none)
  | _ => []

/-- Model of `prune`: once the working set size has reached `MAX_ENTRIES`
(the parameter `maxEntries` stands for the source constant, `1000` in the
source), the entry with the smallest timestamp — ties resolved to the
earliest-inserted, since `Array.prototype.reduce` keeps the accumulator on
a tie — is deleted from the working set and from disk.  (On an empty
working set `reduce` would throw; that needs `maxEntries = 0` and is
unreachable for the source constant.) -/
def prune (maxEntries : ℕ) (st : MemState) : MemState :=
  if st.storage.length ≥ maxEntries then
    match st.storage with
    | [] => st
    | e0 :: rest =>
        let oldestEntry := rest.foldl (fun oldest current =>
          if current.2.timestamp < oldest.2.timestamp then current else oldest) e0
        { storage := st.storage.filter (fun p => ¬ p.1 == oldestEntry.1),
          disk := removeItem st.disk (STORAGE_KEY_STEM ++ oldestEntry.1) }
  else st

/-- Per-call inputs of `record`: the generated unique id, `Date.now()`,
the `performance.now()` delta across the call, and the arguments. -/
structure RecordCall where
  id : String
  now : ℤ
  elapsed : ℤ
  task : String
  result : JsVal
  success : Option Bool
  tags : Option (List String)
  priority : Option ℤ
  duration : Option ℤ
deriving Repr

/-- The entry `record` constructs: `safeguardString(task, '')` is the
identity on a typed string; `safeguardBoolean(success, true)`;
`safeguardNumber(duration, 0)`, overwritten by the wall-clock delta when
the supplied duration is falsy (absent or `0`); `extractErrors` on the
result; `tags || []`; `safeguardNumber(priority, 5)`. -/
def recordEntry (c : RecordCall) : MemoryEntry :=
  { id := c.id, timestamp := c.now, task := c.task, result := c.result,
    metadata := {
      success := c.success.getD true,
      duration := match c.duration with
        | some d => if d == 0 then c.elapsed else d
        | none => c.elapsed,
      errors := extractErrors c.result,
      tags := some (c.tags.getD []),
      priority := c.priority.getD 5 } }

/-- Model of `record`: construct the entry, `prune`, insert into the
working set, persist under `STORAGE_KEY_PREFIX + id` (`persistToDisk`
swallows medium failures; the modelled medium does not fail). -/
def record (maxEntries : ℕ) (c : RecordCall) (st : MemState) : MemState :=
  let entry := recordEntry c
  let st' := prune maxEntries st
  { storage := mapSet st'.storage entry.id entry,
    disk := setItem st'.disk (STORAGE_KEY_STEM ++ entry.id) entry.toJs }

/-- `record` folded over a list of calls, in order. -/
def recordMany (maxEntries : ℕ) (calls : List RecordCall) (st : MemState) : MemState :=
  calls.foldl (fun acc c => record maxEntries c acc) st

end MemorySystemSync

namespace MemorySystemAsync

/-- The `metadata` argument of `recordTask`
(`Partial<MemoryEntry['metadata']>`): every field optional. -/
structure MetaOverrides where
  success : Option Bool
  duration : Option ℤ
  errors : Option (List String)
  tags : Option (List String)
  priority : Option ℤ
deriving Repr

/-- The empty overrides `{}`. -/
def noOverrides : MetaOverrides := ⟨none, none, none, none, none⟩

/-- Model of the async facade's `validateEntry`: same typeof checks as the
persistence validator but with no `result` clause and no
`metadata !== null` test.  (A `null` metadata would make the JS function
throw on `.success` instead of returning `false`; that value is
unreachable from `recordTask`, whose constructed entries always carry a
metadata object, and is modelled as `false`.) -/
def validateEntry (entry : JsVal) : Bool :=
  entry.truthy && entry.typeofObject &&
  (match entry.getField "id" with | some (.str _) => true | _ => false) &&
  (match entry.getField "timestamp" with | some (.num _) => true | _ => false) &&
  (match entry.getField "task" with | some (.str _) => true | _ => false) &&
  (match entry.getField "metadata" with
   | some m => m.typeofObject &&
       (match m.getField "success" with | some (.bool _) => true | _ => false) &&
       (match m.getField "duration" with | some (.num _) => true | _ => false)
   | none => false)

/-- The entry `recordTask` constructs: `result || {}` replaces a falsy
result by an empty object; `success` is honoured with default `true`;
`duration` is hard-coded to `0` at construction and then unconditionally
overwritten with the wall-clock delta `performance.now() - startTime`
(the supplied `metadata.duration` is never read); `errors` and `tags` are
kept only when arrays (else `[]`); `priority` is honoured with default
`5`; `safeguardString(task, 'Unknown task')` is the identity on a typed
string. -/
def recordTaskEntry (id : String) (now elapsed : ℤ) (task : String)
    (result : JsVal) (metadata : MetaOverrides) : MemoryEntry :=
  { id := id, timestamp := now, task := task,
    result := if result.truthy then result else .obj [],
    metadata := {
      success := metadata.success.getD true,
      duration := elapsed,
      errors := metadata.errors.getD [],
      tags := some (metadata.tags.getD []),
      priority := metadata.priority.getD 5 } }

/-- State of the async facade relevant to `recordTask`: the in-memory
working set and the persistence medium.  The model covers an initialized
facade; the lazy-initialization branch (a reload of `entries` from
persistence) precedes recording when not initialized and is outside the
claims settled here. -/
structure AsyncState where
  entries : List MemoryEntry
  store : Store
deriving Repr

/-- Model of `recordTask` on an initialized facade: construct the entry,
validate it (a failure throws), save it through the `PersistenceManager`
(a save failure is re-thrown after the partial write and the entry is not
appended), then append it to the working set.  Returns the new state and
`some id` on success, `none` for a thrown error. -/
def recordTask (id : String) (now elapsed : ℤ) (task : String) (result : JsVal)
    (metadata : MetaOverrides) (st : AsyncState) : AsyncState × Option String :=
  let entry := recordTaskEntry id now elapsed task result metadata
  if ¬ validateEntry entry.toJs then (st, none)
  else
    let save := PersistenceManager.saveEntry now entry.toJs st.store
    if save.2 then ({ entries := st.entries ++ [entry], store := save.1 }, some entry.id)
    else ({ st with store := save.1 }, none)

end MemorySystemAsync

/-! Concrete instances used by the witnesses and counterexamples below.
`sampleSuccess`/`sampleFailure` are the two entries of the specification's
own scenario (a successful `"Create file test.txt"` with duration 120 and
a failed `"Deploy build"`). -/

/-- A successful recorded entry. -/
def sampleSuccess : MemoryEntry :=
  ⟨"id1", 100, "Create file test.txt", .obj [], ⟨true, 120, [], some [], 5⟩⟩

/-- A failed recorded entry. -/
def sampleFailure : MemoryEntry :=
  ⟨"id2", 200, "Deploy build", .obj [], ⟨false, 50, [], some [], 5⟩⟩

/-- An entry tagged only `"a"`. -/
def sampleTagA : MemoryEntry :=
  ⟨"id3", 1, "task a", .obj [], ⟨true, 0, [], some ["a"], 5⟩⟩

/-- An entry tagged `"a"` and `"b"`. -/
def sampleTagAB : MemoryEntry :=
  ⟨"id4", 2, "task ab", .obj [], ⟨true, 0, [], some ["a", "b"], 5⟩⟩

/-- A structurally valid entry whose `id` is the empty string. -/
def sampleEmptyId : MemoryEntry :=
  ⟨"", 5, "task", .obj [], ⟨true, 7, [], some [], 5⟩⟩

/-- A plain valid entry. -/
def samplePlain : MemoryEntry :=
  ⟨"x", 5, "task", .obj [], ⟨true, 7, [], some [], 5⟩⟩

/-- A candidate value that fails the structural validator (numeric `id`,
no further fields). -/
def sampleBad : JsVal := .obj [("id", .num 1)]

/-- Options `{successOnly: false}`. -/
def successOnlyFalseOpts : MemorySearchEngine.SearchOptions :=
  { MemorySearchEngine.noOptions with successOnly := some false }

/-- Options `{successOnly: true}`. -/
def successOnlyTrueOpts : MemorySearchEngine.SearchOptions :=
  { MemorySearchEngine.noOptions with successOnly := some true }

/-- Options `{sortBy: 'relevance'}` (default order `'desc'`). -/
def relevanceOpts : MemorySearchEngine.SearchOptions :=
  { MemorySearchEngine.noOptions with sortBy := some .relevance }

/-- Options `{tags: ["a", "b"]}`. -/
def tagsABOpts : MemorySearchEngine.SearchOptions :=
  { MemorySearchEngine.noOptions with tags := some ["a", "b"] }

/-- Options `{limit: 2}`. -/
def limitTwoOpts : MemorySearchEngine.SearchOptions :=
  { MemorySearchEngine.noOptions with limit := some 2 }

/-- Three record calls with distinct ids and increasing timestamps. -/
def sampleCallA : MemorySystemSync.RecordCall :=
  ⟨"a", 1, 0, "t1", .obj [], none, none, none, none⟩

/-- Second record call. -/
def sampleCallB : MemorySystemSync.RecordCall :=
  ⟨"b", 2, 0, "t2", .obj [], none, none, none, none⟩

/-- Third record call. -/
def sampleCallC : MemorySystemSync.RecordCall :=
  ⟨"c", 3, 0, "t3", .obj [], none, none, none, none⟩

/-- Metadata overrides carrying an explicit `duration` of `120`. -/
def duration120 : MemorySystemAsync.MetaOverrides :=
  { MemorySystemAsync.noOverrides with duration := some 120 }

/-! Helper lemmas about the store and the sort models. -/

theorem getItem_setItem_self (s : Store) (k : String) (v : JsVal) :
    getItem (setItem s k v) k = some v := by
  induction s with
  | nil => simp [setItem, getItem, List.lookup]
  | cons p rest ih =>
      obtain ⟨k', v'⟩ := p
      by_cases h : k' = k
      · subst h; simp [setItem, getItem, List.lookup]
      · have hb : (k' == k) = false := by simpa using h
        have hb2 : (k == k') = false := by simpa using Ne.symm h
        simp only [setItem, hb, if_false, getItem, List.lookup, hb2] at ih ⊢
        exact ih

theorem getItem_setItem_ne (s : Store) (k k2 : String) (v : JsVal) (h : k2 ≠ k) :
    getItem (setItem s k v) k2 = getItem s k2 := by
  have hbk : (k2 == k) = false := by simpa using h
  induction s with
  | nil => simp [setItem, getItem, List.lookup, hbk]
  | cons p rest ih =>
      obtain ⟨k', v'⟩ := p
      by_cases hk : k' = k
      · subst hk
        simp [setItem, getItem, List.lookup, hbk]
      · have hb : (k' == k) = false := by simpa using hk
        by_cases h2 : k2 = k'
        · subst h2
          simp [setItem, hb, getItem, List.lookup]
        · have hb2 : (k2 == k') = false := by simpa using h2
          simp only [setItem, hb, if_false, getItem, List.lookup, hb2] at ih ⊢
          exact ih

theorem setItem_fresh (s : Store) (k : String) (v : JsVal)
    (h : ∀ p ∈ s, p.1 ≠ k) : setItem s k v = s ++ [(k, v)] := by
  induction s with
  | nil => simp [setItem]
  | cons p rest ih =>
      obtain ⟨k', v'⟩ := p
      have hk : k' ≠ k := h (k', v') (List.mem_cons_self _ _)
      simp only [setItem]
      rw [if_neg (by simpa using hk)]
      simp [ih (fun q hq => h q (List.mem_cons_of_mem _ hq))]

theorem mem_jsSortInsertI {α : Type} (cmp : α → α → ℤ) (x a : α) (l : List α) :
    a ∈ jsSortInsertI cmp x l ↔ a = x ∨ a ∈ l := by
  induction l with
  | nil => simp [jsSortInsertI]
  | cons y ys ih =>
      by_cases h : cmp y x > 0
      · simp [jsSortInsertI, h]
      · simp [jsSortInsertI, h, ih]
        tauto

theorem length_jsSortInsertI {α : Type} (cmp : α → α → ℤ) (x : α) (l : List α) :
    (jsSortInsertI cmp x l).length = l.length + 1 := by
  induction l with
  | nil => simp [jsSortInsertI]
  | cons y ys ih =>
      by_cases h : cmp y x > 0
      · simp [jsSortInsertI, h]
      · simp [jsSortInsertI, h, ih]

theorem mem_jsSortI_aux {α : Type} (cmp : α → α → ℤ) (l acc : List α) (a : α) :
    a ∈ List.foldl (fun acc y => jsSortInsertI cmp y acc) acc l ↔ a ∈ acc ∨ a ∈ l := by
  induction l generalizing acc with
  | nil => simp
  | cons y ys ih =>
      rw [List.foldl_cons, ih, mem_jsSortInsertI]
      simp
      tauto

theorem mem_jsSortI {α : Type} (cmp : α → α → ℤ) (l : List α) (a : α) :
    a ∈ jsSortI cmp l ↔ a ∈ l := by
  simpa [jsSortI] using mem_jsSortI_aux cmp l [] a

theorem length_jsSortI_aux {α : Type} (cmp : α → α → ℤ) (l acc : List α) :
    (List.foldl (fun acc y => jsSortInsertI cmp y acc) acc l).length = acc.length + l.length := by
  induction l generalizing acc with
  | nil => simp
  | cons y ys ih =>
      rw [List.foldl_cons, ih, length_jsSortInsertI, List.length_cons]
      omega

theorem length_jsSortI {α : Type} (cmp : α → α → ℤ) (l : List α) :
    (jsSortI cmp l).length = l.length := by
  simpa [jsSortI] using length_jsSortI_aux cmp l []

theorem jsSortInsertI_of_pos {α : Type} (cmp : α → α → ℤ) (x : α) (l : List α)
    (h : ∀ y, 0 < cmp y x) : jsSortInsertI cmp x l = x :: l := by
  cases l with
  | nil => simp [jsSortInsertI]
  | cons y ys => simp [jsSortInsertI, h y]

theorem jsSortInsertI_of_nonpos {α : Type} (cmp : α → α → ℤ) (x : α) (l : List α)
    (h : ∀ y, ¬ 0 < cmp y x) : jsSortInsertI cmp x l = l ++ [x] := by
  induction l with
  | nil => simp [jsSortInsertI]
  | cons y ys ih => simp [jsSortInsertI, h y, ih]

theorem jsSortI_pairwise_of_key {α : Type} (P : α → Bool) (cmp : α → α → ℤ)
    (hc : ∀ y x, (0 < cmp y x) ↔ P x = true) (l : List α) :
    (jsSortI cmp l).Pairwise (fun a b => P b = true → P a = true) := by
  suffices h : ∀ acc, acc.Pairwise (fun a b => P b = true → P a = true) →
      (List.foldl (fun acc y => jsSortInsertI cmp y acc) acc l).Pairwise
        (fun a b => P b = true → P a = true) by
    exact h [] (by simp)
  induction l with
  | nil => intro acc hacc; simpa using hacc
  | cons x xs ih =>
      intro acc hacc
      rw [List.foldl_cons]
      apply ih
      by_cases hx : P x = true
      · rw [jsSortInsertI_of_pos cmp x acc (fun y => (hc y x).mpr hx)]
        exact List.pairwise_cons.mpr ⟨fun b _ _ => hx, hacc⟩
      · rw [jsSortInsertI_of_nonpos cmp x acc (fun y hpos => hx ((hc y x).mp hpos))]
        refine List.pairwise_append.mpr ⟨hacc, by simp, ?_⟩
        intro a _ b hb
        simp at hb
        subst hb
        intro hpx
        exact absurd hpx hx

theorem mem_jsSortInsertQ {α : Type} (cmp : α → α → ℚ) (x a : α) (l : List α) :
    a ∈ jsSortInsertQ cmp x l ↔ a = x ∨ a ∈ l := by
  induction l with
  | nil => simp [jsSortInsertQ]
  | cons y ys ih =>
      by_cases h : cmp y x > 0
      · simp [jsSortInsertQ, h]
      · simp [jsSortInsertQ, h, ih]
        tauto

theorem mem_jsSortQ_aux {α : Type} (cmp : α → α → ℚ) (l acc : List α) (a : α) :
    a ∈ List.foldl (fun acc y => jsSortInsertQ cmp y acc) acc l ↔ a ∈ acc ∨ a ∈ l := by
  induction l generalizing acc with
  | nil => simp
  | cons y ys ih =>
      rw [List.foldl_cons, ih, mem_jsSortInsertQ]
      simp
      tauto

theorem mem_jsSortQ {α : Type} (cmp : α → α → ℚ) (l : List α) (a : α) :
    a ∈ jsSortQ cmp l ↔ a ∈ l := by
  simpa [jsSortQ] using mem_jsSortQ_aux cmp l [] a

theorem jsSortInsertQ_pairwise_key {α : Type} (k : α → ℚ) (x : α) (l : List α)
    (h : l.Pairwise (fun a b => k b ≤ k a)) :
    (jsSortInsertQ (fun a b => k b - k a) x l).Pairwise (fun a b => k b ≤ k a) := by
  induction l with
  | nil => simp [jsSortInsertQ]
  | cons y ys ih =>
      rcases List.pairwise_cons.mp h with ⟨hy, hys⟩
      by_cases hcmp : (fun a b => k b - k a) y x > 0
      · rw [jsSortInsertQ, if_pos hcmp]
        simp only at hcmp
        refine List.pairwise_cons.mpr ⟨?_, h⟩
        intro b hb
        rcases List.mem_cons.mp hb with hb | hb
        · subst hb; linarith
        · have := hy b hb; linarith
      · rw [jsSortInsertQ, if_neg hcmp]
        simp only at hcmp
        refine List.pairwise_cons.mpr ⟨?_, ih hys⟩
        intro b hb
        rcases (mem_jsSortInsertQ _ x b ys).mp hb with hb | hb
        · subst hb; linarith
        · exact hy b hb

theorem jsSortQ_sorted_key {α : Type} (k : α → ℚ) (l : List α) :
    (jsSortQ (fun a b => k b - k a) l).Pairwise (fun a b => k b ≤ k a) := by
  suffices h : ∀ acc : List α, acc.Pairwise (fun a b => k b ≤ k a) →
      (List.foldl (fun acc y => jsSortInsertQ (fun a b => k b - k a) y acc) acc l).Pairwise
        (fun a b => k b ≤ k a) by
    exact h [] (by simp)
  induction l with
  | nil => intro acc hacc; simpa using hacc
  | cons x xs ih =>
      intro acc hacc
      rw [List.foldl_cons]
      exact ih _ (jsSortInsertQ_pairwise_key k x acc hacc)

theorem jsSlice0_eq_take {α : Type} (n : ℤ) (l : List α) :
    ∃ m, jsSlice0 n l = l.take m := by
  unfold jsSlice0
  split
  · exact ⟨_, rfl⟩
  · exact ⟨_, rfl⟩

theorem jsSlice0_sublist {α : Type} (n : ℤ) (l : List α) :
    (jsSlice0 n l).Sublist l := by
  obtain ⟨m, hm⟩ := jsSlice0_eq_take n l
  rw [hm]
  exact List.take_sublist m l

theorem mem_of_mem_jsSlice0 {α : Type} {n : ℤ} {l : List α} {a : α}
    (h : a ∈ jsSlice0 n l) : a ∈ l :=
  (jsSlice0_sublist n l).subset h

theorem length_jsSlice0_of_nonneg {α : Type} (n : ℤ) (l : List α) (h : 0 ≤ n) :
    (jsSlice0 n l).length = min n.toNat l.length := by
  unfold jsSlice0
  rw [if_neg (by omega), List.length_take]

namespace MemorySearchEngine

theorem length_sortResults (r : List MemoryEntry) (sb : Option SortKey) (so : SortOrder) :
    (sortResults r sb so).length = r.length := by
  cases sb with
  | none => rfl
  | some k => simp [sortResults, length_jsSortI]

theorem mem_sortResults {r : List MemoryEntry} {sb : Option SortKey} {so : SortOrder}
    {e : MemoryEntry} (h : e ∈ sortResults r sb so) : e ∈ r := by
  cases sb with
  | none => exact h
  | some k => exact (mem_jsSortI _ r e).mp h

theorem search_entries_sublist (es : List MemoryEntry) (opts : SearchOptions) (t : ℤ) :
    (search es opts t).entries.Sublist
      (sortResults (es.filter (matchesOptions opts)) opts.sortBy (opts.sortOrder.getD .desc)) := by
  unfold search
  cases hl : opts.limit with
  | none => simp
  | some l =>
      simp only
      split
      · exact jsSlice0_sublist _ _
      · exact List.Sublist.refl _

theorem mem_search_entries {es : List MemoryEntry} {opts : SearchOptions} {t : ℤ}
    {e : MemoryEntry} (h : e ∈ (search es opts t).entries) :
    e ∈ es ∧ matchesOptions opts e = true := by
  have h2 := (search_entries_sublist es opts t).subset h
  have h3 := mem_sortResults h2
  exact ⟨(List.mem_filter.mp h3).1, (List.mem_filter.mp h3).2⟩

end MemorySearchEngine

theorem string_append_left_cancel {p a b : String} (h : p ++ a = p ++ b) : a = b := by
  have hd : (p ++ a).data = (p ++ b).data := by rw [h]
  rw [String.data_append, String.data_append] at hd
  have h2 := List.append_cancel_left hd
  cases a; cases b
  exact congrArg String.mk h2

namespace PersistenceManager

theorem retrieveEntry_validates {entryId : String} {s : Store} {v : JsVal}
    (h : retrieveEntry entryId s = some v) : validateEntry v = true := by
  simp only [retrieveEntry] at h
  split at h
  · exact absurd h (by simp)
  · split at h
    · rename_i hv
      cases h
      exact hv
    · exact absurd h (by simp)

theorem retrieveEntries_validate {now : ℤ} {s : Store} {v : JsVal}
    (h : v ∈ retrieveEntries now s) : validateEntry v = true := by
  simp only [retrieveEntries] at h
  cases hidx : (getMemoryIndex now s).getField "entryIds" with
  | none => rw [hidx] at h; exact absurd h (by simp)
  | some w =>
      rw [hidx] at h
      cases w with
      | arr ids =>
          obtain ⟨idv, _, hr⟩ := List.mem_filterMap.mp h
          exact retrieveEntry_validates hr
      | str cs =>
          obtain ⟨c, _, hr⟩ := List.mem_filterMap.mp h
          exact retrieveEntry_validates hr
      | null => exact absurd h (by simp)
      | bool b => exact absurd h (by simp)
      | num n => exact absurd h (by simp)
      | obj fs => exact absurd h (by simp)

theorem updateMemoryIndex_store (now : ℤ) (idv : JsVal) (s : Store) :
    (updateMemoryIndex now idv s).1 = s ∨
    ∃ w, (updateMemoryIndex now idv s).1 = setItem s METADATA_KEY w := by
  simp only [updateMemoryIndex]
  cases hidx : (getMemoryIndex now s).getField "entryIds" with
  | none => left; rfl
  | some w =>
      cases w with
      | arr ids => right; exact ⟨_, rfl⟩
      | str cs =>
          by_cases hin : jsIncludes cs (jsTemplateStr idv) = true
          · right
            simp only [hin, if_true]
            exact ⟨_, rfl⟩
          · left
            simp only [Bool.not_eq_true] at hin
            simp only [hin, Bool.false_eq_true, if_false]
      | null => left; rfl
      | bool b => left; rfl
      | num n => left; rfl
      | obj fs => left; rfl

/-- The serialized form of a typed entry carries its id in the `id`
field. -/
theorem toJs_getField_id (e : MemoryEntry) :
    (MemoryEntry.toJs e).getField "id" = some (.str e.id) := rfl

/-- The serialized form of a typed entry has no `entryIds` field (it has
exactly the five entry fields). -/
theorem toJs_getField_entryIds (e : MemoryEntry) :
    (MemoryEntry.toJs e).getField "entryIds" = none := rfl

end PersistenceManager

namespace MemorySystemSync

theorem foldl_oldest (e0 : String × MemoryEntry) (rest : List (String × MemoryEntry))
    (h : ∀ c ∈ rest, ¬ c.2.timestamp < e0.2.timestamp) :
    rest.foldl (fun oldest current =>
      if current.2.timestamp < oldest.2.timestamp then current else oldest) e0 = e0 := by
  induction rest with
  | nil => rfl
  | cons c cs ih =>
      rw [List.foldl_cons, if_neg (h c (List.mem_cons_self _ _))]
      exact ih (fun c' hc' => h c' (List.mem_cons_of_mem _ hc'))

theorem mapSet_fresh (m : List (String × MemoryEntry)) (k : String) (v : MemoryEntry)
    (h : ∀ p ∈ m, p.1 ≠ k) : mapSet m k v = m ++ [(k, v)] := by
  induction m with
  | nil => simp [mapSet]
  | cons p rest ih =>
      obtain ⟨k', v'⟩ := p
      have hk : k' ≠ k := h (k', v') (List.mem_cons_self _ _)
      simp only [mapSet]
      rw [if_neg (by simpa using hk)]
      simp [ih (fun q hq => h q (List.mem_cons_of_mem _ hq))]

theorem recordEntry_id (c : RecordCall) : (recordEntry c).id = c.id := rfl

theorem recordEntry_timestamp (c : RecordCall) : (recordEntry c).timestamp = c.now := rfl

theorem recordMany_no_evict (maxE : ℕ) (calls : List RecordCall) (st : MemState)
    (hlen : st.storage.length + calls.length ≤ maxE)
    (hfresh : ∀ c ∈ calls, ∀ p ∈ st.storage, p.1 ≠ c.id)
    (hdfresh : ∀ c ∈ calls, ∀ p ∈ st.disk, p.1 ≠ STORAGE_KEY_STEM ++ c.id)
    (hnodup : (calls.map (fun c => c.id)).Nodup) :
    recordMany maxE calls st =
      ⟨st.storage ++ calls.map (fun c => (c.id, recordEntry c)),
       st.disk ++ calls.map (fun c => (STORAGE_KEY_STEM ++ c.id, (recordEntry c).toJs))⟩ := by
  induction calls generalizing st with
  | nil => simp [recordMany]
  | cons c cs ih =>
      have hpr : prune maxE st = st := by
        unfold prune
        rw [if_neg]
        simp only [List.length_cons] at hlen
        omega
      have hrec : record maxE c st =
          ⟨st.storage ++ [(c.id, recordEntry c)],
           st.disk ++ [(STORAGE_KEY_STEM ++ c.id, (recordEntry c).toJs)]⟩ := by
        simp only [record, hpr, recordEntry_id]
        rw [mapSet_fresh _ _ _ (fun p hp => hfresh c (List.mem_cons_self _ _) p hp)]
        rw [setItem_fresh _ _ _ (fun p hp => hdfresh c (List.mem_cons_self _ _) p hp)]
      have hcid : ∀ c' ∈ cs, c.id ≠ c'.id := by
        intro c' hc'
        have hnotin := (List.nodup_cons.mp hnodup).1
        intro heq
        apply hnotin
        show c.id ∈ List.map (fun c => c.id) cs
        rw [heq]
        exact List.mem_map_of_mem (fun c => c.id) hc'
      have hmain := ih ⟨st.storage ++ [(c.id, recordEntry c)],
           st.disk ++ [(STORAGE_KEY_STEM ++ c.id, (recordEntry c).toJs)]⟩
        (by simp only [List.length_append, List.length_cons, List.length_nil] at hlen ⊢; omega)
        (by
          intro c' hc' p hp
          rcases List.mem_append.mp hp with hp | hp
          · exact hfresh c' (List.mem_cons_of_mem _ hc') p hp
          · rw [List.mem_singleton.mp hp]
            exact hcid c' hc')
        (by
          intro c' hc' p hp
          rcases List.mem_append.mp hp with hp | hp
          · exact hdfresh c' (List.mem_cons_of_mem _ hc') p hp
          · rw [List.mem_singleton.mp hp]
            intro heq
            exact hcid c' hc' (string_append_left_cancel heq))
        (List.nodup_cons.mp hnodup).2
      unfold recordMany at hmain ⊢
      rw [List.foldl_cons, hrec]
      rw [hmain]
      simp

end MemorySystemSync

namespace MemorySearchEngine

theorem levenshteinDistance_self (xs : List Char) : levenshteinDistance xs xs = 0 := by
  induction xs with
  | nil => simp [levenshteinDistance]
  | cons x xs ih =>
      rw [levenshteinDistance]
      rw [ih]
      simp

theorem calculateSimilarity_self (s : String) : calculateSimilarity s s = 1 := by
  simp only [calculateSimilarity, levenshteinDistance_self, Nat.cast_zero, max_self]
  split
  · rfl
  · simp

end MemorySearchEngine

/-! Claim theorems. -/

section ClaimC2

open MemorySearchEngine

/-- C2 (counterexample): the claim says `search({successOnly:false})`
after recording one successful and one failed entry returns both.  On the
code, `successOnly:false` is an exact match on `metadata.success`: the
successful entry is filtered out and only the failed one is returned. -/
theorem C2_successOnly_false_counterexample :
    (search [sampleSuccess, sampleFailure] successOnlyFalseOpts 0).entries = [sampleFailure] ∧
    sampleSuccess.metadata.success = true ∧
    sampleFailure.metadata.success = false ∧
    sampleSuccess ∉ (search [sampleSuccess, sampleFailure] successOnlyFalseOpts 0).entries := by
  refine ⟨rfl, rfl, rfl, ?_⟩
  have h : (search [sampleSuccess, sampleFailure] successOnlyFalseOpts 0).entries
      = [sampleFailure] := rfl
  rw [h]
  intro hmem
  have heq := List.mem_singleton.mp hmem
  have hb := congrArg (fun e => e.metadata.success) heq
  simp [sampleSuccess, sampleFailure] at hb

/-- C2 (amended): `successOnly` is an exact match on `metadata.success`:
whenever `successOnly` is supplied with value `b`, every entry `search`
returns has `metadata.success = b` — so `successOnly:false` returns only
the failed entries, `successOnly:true` only the successful ones, and both
entries are returned only when `successOnly` is omitted. -/
theorem C2_successOnly_exact_match (es : List MemoryEntry) (opts : SearchOptions)
    (t : ℤ) (b : Bool) (hopt : opts.successOnly = some b) :
    ∀ e ∈ (search es opts t).entries, e.metadata.success = b := by
  intro e he
  have hm := (mem_search_entries he).2
  simp only [matchesOptions, hopt, Bool.and_eq_true] at hm
  obtain ⟨⟨⟨⟨hA, hB⟩, hC⟩, hD⟩, hE⟩ := hm
  simpa using hC

/-- C2 witness: the amended theorem applied to the scenario's two entries
with `successOnly:false`; the failed entry is returned and is indeed
failed. -/
theorem C2_successOnly_exact_match_witness :
    successOnlyFalseOpts.successOnly = some false ∧
    sampleFailure ∈ (search [sampleSuccess, sampleFailure] successOnlyFalseOpts 0).entries ∧
    sampleFailure.metadata.success = false := by
  have h : (search [sampleSuccess, sampleFailure] successOnlyFalseOpts 0).entries
      = [sampleFailure] := rfl
  have hmem : sampleFailure ∈ (search [sampleSuccess, sampleFailure] successOnlyFalseOpts 0).entries := by
    rw [h]; exact List.mem_singleton_self _
  exact ⟨rfl, hmem,
    C2_successOnly_exact_match [sampleSuccess, sampleFailure] successOnlyFalseOpts 0 false rfl
      sampleFailure hmem⟩

end ClaimC2

section ClaimC6

open MemorySearchEngine

/-- C6: tag filtering uses AND semantics.  For every non-empty tag list
`T` passed in the search options, every entry `search` returns carries a
`tags` list containing every tag of `T`; an entry with only a proper
subset of `T` is thereby excluded. -/
theorem C6_tags_and_semantics (es : List MemoryEntry) (opts : SearchOptions)
    (t : ℤ) (T : List String) (hopt : opts.tags = some T) (hne : T ≠ []) :
    ∀ e ∈ (search es opts t).entries,
      ∃ ts, e.metadata.tags = some ts ∧ ∀ tag ∈ T, tag ∈ ts := by
  intro e he
  have hm := (mem_search_entries he).2
  have hemp : T.isEmpty = false := by
    cases T with
    | nil => exact absurd rfl hne
    | cons a as => rfl
  simp only [matchesOptions, hopt, hemp, Bool.false_or, Bool.and_eq_true] at hm
  obtain ⟨⟨⟨⟨hA, hB⟩, hC⟩, hD⟩, hE⟩ := hm
  unfold matchTags at hD
  cases htags : e.metadata.tags with
  | none => rw [htags] at hD; exact absurd hD (by simp)
  | some ts =>
      rw [htags] at hD
      refine ⟨ts, rfl, ?_⟩
      intro tag htag
      have := List.all_eq_true.mp hD tag htag
      simpa using this

/-- C6 witness: with tags `["a","b"]` over a working set holding an
`["a"]`-tagged and an `["a","b"]`-tagged entry, the returned entry carries
both tags. -/
theorem C6_tags_and_semantics_witness :
    tagsABOpts.tags = some ["a", "b"] ∧ (["a", "b"] ≠ ([] : List String)) ∧
    sampleTagAB ∈ (search [sampleTagA, sampleTagAB] tagsABOpts 0).entries ∧
    (∃ ts, sampleTagAB.metadata.tags = some ts ∧ ∀ tag ∈ ["a", "b"], tag ∈ ts) := by
  have h : (search [sampleTagA, sampleTagAB] tagsABOpts 0).entries = [sampleTagAB] := rfl
  have hmem : sampleTagAB ∈ (search [sampleTagA, sampleTagAB] tagsABOpts 0).entries := by
    rw [h]; exact List.mem_singleton_self _
  exact ⟨rfl, by simp, hmem,
    C6_tags_and_semantics [sampleTagA, sampleTagAB] tagsABOpts 0 ["a", "b"] rfl (by simp)
      sampleTagAB hmem⟩

end ClaimC6

section ClaimC10

open MemorySearchEngine

/-- C10 (implicit): the `totalCount` of a search result equals the length
of the returned entries list after limit truncation; in particular, when a
positive limit smaller than the number of matching entries is supplied,
`totalCount` equals the limit, not the number of entries matching the
filters. -/
theorem C10_totalCount_after_truncation (es : List MemoryEntry)
    (opts : SearchOptions) (t : ℤ) :
    (search es opts t).totalCount = (search es opts t).entries.length ∧
    (∀ l : ℤ, opts.limit = some l → 0 < l →
      l.toNat ≤ (es.filter (matchesOptions opts)).length →
      (search es opts t).totalCount = l.toNat) := by
  constructor
  · rfl
  · intro l hl hpos hle
    simp only [search, hl]
    rw [if_pos hpos]
    rw [length_jsSlice0_of_nonneg _ _ (le_of_lt hpos), length_sortResults]
    omega

/-- C10 witness: three matching entries with limit 2 yield
`totalCount = 2`. -/
theorem C10_totalCount_after_truncation_witness :
    limitTwoOpts.limit = some (2 : ℤ) ∧ (0 : ℤ) < 2 ∧
    (2 : ℤ).toNat ≤ ([sampleSuccess, sampleFailure, sampleTagA].filter
      (matchesOptions limitTwoOpts)).length ∧
    (search [sampleSuccess, sampleFailure, sampleTagA] limitTwoOpts 0).totalCount = (2 : ℤ).toNat := by
  refine ⟨rfl, by decide, by decide, ?_⟩
  exact (C10_totalCount_after_truncation [sampleSuccess, sampleFailure, sampleTagA]
    limitTwoOpts 0).2 2 rfl (by decide) (by decide)

end ClaimC10

section ClaimC3

open MemorySearchEngine

/-- C3 (counterexample): the claim says that with `sortBy:'relevance'`
and the default `sortOrder` (`'desc'`), every successful entry precedes
every failed one.  On the code the comparator heuristic
`b.metadata.success ? 1 : -1` combined with the `'desc'` negation places
the failed entry first: for one successful and one failed entry the
result is `[failed, successful]`. -/
theorem C3_relevance_desc_counterexample :
    (search [sampleSuccess, sampleFailure] relevanceOpts 0).entries
      = [sampleFailure, sampleSuccess] ∧
    sampleFailure.metadata.success = false ∧
    sampleSuccess.metadata.success = true ∧
    ¬ List.Pairwise (fun a b => a.metadata.success = true ∨ b.metadata.success = false)
        ((search [sampleSuccess, sampleFailure] relevanceOpts 0).entries) := by
  refine ⟨rfl, rfl, rfl, ?_⟩
  have h : (search [sampleSuccess, sampleFailure] relevanceOpts 0).entries
      = [sampleFailure, sampleSuccess] := rfl
  rw [h]
  intro hp
  rcases List.pairwise_cons.mp hp with ⟨h1, _⟩
  have h2 := h1 sampleSuccess (List.mem_cons_self _ _)
  rcases h2 with h2 | h2 <;> simp [sampleFailure, sampleSuccess] at h2

/-- C3 (amended): with `sortBy:'relevance'` and the default `sortOrder`
(`'desc'`, whether omitted or explicit), every FAILED entry appears
before every successful one in the returned list: along the returned
order, once an entry is successful every later entry is successful. -/
theorem C3_relevance_desc_failed_first (es : List MemoryEntry) (opts : SearchOptions)
    (t : ℤ) (hsb : opts.sortBy = some .relevance)
    (hso : opts.sortOrder = none ∨ opts.sortOrder = some .desc) :
    ((search es opts t).entries).Pairwise
      (fun a b => a.metadata.success = true → b.metadata.success = true) := by
  have hgd : opts.sortOrder.getD .desc = .desc := by
    rcases hso with h | h <;> simp [h]
  have hsorted : (sortResults (es.filter (matchesOptions opts)) opts.sortBy
      (opts.sortOrder.getD .desc)).Pairwise
      (fun a b => a.metadata.success = true → b.metadata.success = true) := by
    rw [hsb, hgd]
    simp only [sortResults]
    have hkey := jsSortI_pairwise_of_key (fun e : MemoryEntry => !e.metadata.success)
      (fun a b =>
        let comparison := sortComparison .relevance a b
        match SortOrder.desc with
        | .asc => comparison
        | .desc => -comparison)
      (by
        intro y x
        simp only [sortComparison]
        cases hx : x.metadata.success <;> simp)
      (es.filter (matchesOptions opts))
    refine hkey.imp ?_
    intro a b hab ha
    cases hb : b.metadata.success
    · have := hab (by simp [hb])
      simp [ha] at this
    · rfl
  exact List.Pairwise.sublist (search_entries_sublist es opts t) hsorted

/-- C3 witness: the amended theorem applied to the two scenario entries
with `sortBy:'relevance'` and `sortOrder` omitted. -/
theorem C3_relevance_desc_failed_first_witness :
    relevanceOpts.sortBy = some SortKey.relevance ∧
    (relevanceOpts.sortOrder = none ∨ relevanceOpts.sortOrder = some SortOrder.desc) ∧
    ((search [sampleSuccess, sampleFailure] relevanceOpts 0).entries).Pairwise
      (fun a b => a.metadata.success = true → b.metadata.success = true) :=
  ⟨rfl, Or.inl rfl,
    C3_relevance_desc_failed_first [sampleSuccess, sampleFailure] relevanceOpts 0 rfl (Or.inl rfl)⟩

end ClaimC3

section ClaimC5

open MemorySearchEngine

/-- C5: every result of `findSimilarTasks` has similarity at least the
supplied threshold, and that similarity is exactly
`calculateSimilarity entry.task task` — one minus the Levenshtein
distance of the lower-cased texts divided by the longer length; the
similarity of any string against itself is exactly `1`; the results are
sorted by descending similarity; and (for a non-negative limit) at most
`limit` results are returned. -/
theorem C5_similarity_threshold_and_sort (es : List MemoryEntry) (task : String)
    (threshold : ℚ) (limit : ℤ) :
    (∀ r ∈ findSimilarTasks es task threshold limit,
      threshold ≤ r.similarity ∧ r.similarity = calculateSimilarity r.entry.task task) ∧
    (∀ s : String, calculateSimilarity s s = 1) ∧
    ((findSimilarTasks es task threshold limit).Pairwise
      (fun a b => b.similarity ≤ a.similarity)) ∧
    (0 ≤ limit → ((findSimilarTasks es task threshold limit).length : ℤ) ≤ limit) := by
  refine ⟨?_, calculateSimilarity_self, ?_, ?_⟩
  · intro r hr
    simp only [findSimilarTasks] at hr
    have hr2 := mem_of_mem_jsSlice0 hr
    have hr3 := (mem_jsSortQ _ _ r).mp hr2
    obtain ⟨e, he, heq⟩ := List.mem_filterMap.mp hr3
    split at heq
    · rename_i hth
      cases heq
      exact ⟨hth, rfl⟩
    · exact absurd heq (by simp)
  · simp only [findSimilarTasks]
    exact List.Pairwise.sublist (jsSlice0_sublist _ _)
      (jsSortQ_sorted_key (fun r : SimilarityResult => r.similarity) _)
  · intro h
    simp only [findSimilarTasks]
    rw [length_jsSlice0_of_nonneg _ _ h]
    have := Int.toNat_of_nonneg h
    omega

/-- C5 witness: over a one-entry working set queried with the entry's own
task text, the entry is returned with similarity `1 ≥ 1/2`, the
self-similarity instance evaluates to `1`, and the result count respects
the limit. -/
theorem C5_similarity_threshold_and_sort_witness :
    (⟨samplePlain, calculateSimilarity samplePlain.task "task",
        findMatchedTerms samplePlain.task "task"⟩ : SimilarityResult) ∈
      findSimilarTasks [samplePlain] "task" (1/2) 10 ∧
    ((1 : ℚ)/2) ≤ calculateSimilarity samplePlain.task "task" ∧
    calculateSimilarity "task" "task" = 1 ∧
    (0 : ℤ) ≤ 10 ∧ ((findSimilarTasks [samplePlain] "task" (1/2) 10).length : ℤ) ≤ 10 := by
  have hsim : calculateSimilarity samplePlain.task "task" = 1 :=
    calculateSimilarity_self "task"
  have heval : findSimilarTasks [samplePlain] "task" (1/2) 10 =
      [⟨samplePlain, calculateSimilarity samplePlain.task "task",
        findMatchedTerms samplePlain.task "task"⟩] := by
    simp only [findSimilarTasks, List.filterMap]
    rw [if_pos (by rw [hsim]; norm_num)]
    rfl
  have hmem : (⟨samplePlain, calculateSimilarity samplePlain.task "task",
      findMatchedTerms samplePlain.task "task"⟩ : SimilarityResult) ∈
      findSimilarTasks [samplePlain] "task" (1/2) 10 := by
    rw [heval]; exact List.mem_singleton_self _
  refine ⟨hmem, ?_, ?_, by norm_num, ?_⟩
  · exact ((C5_similarity_threshold_and_sort [samplePlain] "task" (1/2) 10).1 _ hmem).1
  · exact (C5_similarity_threshold_and_sort [samplePlain] "task" (1/2) 10).2.1 "task"
  · exact (C5_similarity_threshold_and_sort [samplePlain] "task" (1/2) 10).2.2.2 (by norm_num)

end ClaimC5

section ClaimC9

open MemorySearchEngine SearchEngineJs

/-- C9: `search` never throws to its caller.  For every options value and
(untyped) working set, either the body (filtering, sorting, limiting and
suggestion generation) succeeds and `search` returns its entries with
their count, the elapsed time and the suggestions, or some internal step
throws and `search` returns the empty entries list, `totalCount` 0 and
the measured elapsed time (with the `suggestions` field omitted).  The
error branch is reachable: a `null` element in the working set makes the
filter throw, and `search` degrades to the empty result. -/
theorem C9_search_never_throws :
    (∀ (es : List JsVal) (opts : SearchOptions) (t : ℤ),
      (∃ l sugg, searchBodyJs es opts = .ok (l, sugg) ∧
        searchJs es opts t = ⟨l, l.length, t, opts, some sugg⟩) ∨
      (searchBodyJs es opts = .error () ∧
        searchJs es opts t = ⟨[], 0, t, opts, none⟩)) ∧
    searchBodyJs [JsVal.null] noOptions = .error () ∧
    searchJs [JsVal.null] noOptions 5 = ⟨[], 0, 5, noOptions, none⟩ := by
  refine ⟨?_, rfl, rfl⟩
  intro es opts t
  cases h : searchBodyJs es opts with
  | ok p =>
      obtain ⟨l, sugg⟩ := p
      left
      exact ⟨l, sugg, rfl, by simp [searchJs, h]⟩
  | error e =>
      cases e
      right
      exact ⟨rfl, by simp [searchJs, h]⟩

end ClaimC9

section ClaimC4

open PersistenceManager

/-- C4 (counterexample): the claim requires the validator to demand a
NON-EMPTY `id` string.  The code's validator only checks
`typeof id === 'string'`: an entry with the empty string as its `id`
passes validation, is persisted by `saveEntry` without error, and is
returned by `retrieveEntries`. -/
theorem C4_empty_id_counterexample :
    sampleEmptyId.id = "" ∧
    validateEntry sampleEmptyId.toJs = true ∧
    (saveEntry 0 sampleEmptyId.toJs []).2 = true ∧
    retrieveEntries 0 (saveEntry 0 sampleEmptyId.toJs []).1 = [sampleEmptyId.toJs] :=
  ⟨rfl, rfl, rfl, rfl⟩

/-- C4 (amended): the structural validator checks that `id` is a string
(possibly empty), `timestamp` numeric, `task` a string, `result` a
non-null object, and `metadata` a non-null object with boolean `success`
and numeric `duration`.  `saveEntry` rejects (throws on) every candidate
failing the validator without touching the store; everything persisted
with success passed the validator; and every value `retrieveEntries`
returns passes the validator, so invalid candidates are absent from its
result. -/
theorem C4_validation_guards :
    (∀ (now : ℤ) (v : JsVal) (s : Store),
      validateEntry v = false → saveEntry now v s = (s, false)) ∧
    (∀ (now : ℤ) (s : Store) (v : JsVal),
      v ∈ retrieveEntries now s → validateEntry v = true) ∧
    (∀ (now : ℤ) (v : JsVal) (s : Store),
      (saveEntry now v s).2 = true → validateEntry v = true) := by
  have hrej : ∀ (now : ℤ) (v : JsVal) (s : Store),
      validateEntry v = false → saveEntry now v s = (s, false) := by
    intro now v s h
    simp [saveEntry, h]
  refine ⟨hrej, ?_, ?_⟩
  · intro now s v h
    exact retrieveEntries_validate h
  · intro now v s h
    by_contra hv
    rw [Bool.not_eq_true] at hv
    rw [hrej now v s hv] at h
    exact absurd h (by simp)

/-- C4 witness: the rejection clause applied to a malformed candidate
(numeric `id`), the retrieval clause applied to a stored valid entry, and
the persistence clause applied to a successful save. -/
theorem C4_validation_guards_witness :
    validateEntry sampleBad = false ∧
    saveEntry 0 sampleBad [] = ([], false) ∧
    samplePlain.toJs ∈ retrieveEntries 0 (saveEntry 0 samplePlain.toJs []).1 ∧
    validateEntry samplePlain.toJs = true ∧
    (saveEntry 0 samplePlain.toJs []).2 = true := by
  have hmem : samplePlain.toJs ∈ retrieveEntries 0 (saveEntry 0 samplePlain.toJs []).1 := by
    have h : retrieveEntries 0 (saveEntry 0 samplePlain.toJs []).1 = [samplePlain.toJs] := rfl
    rw [h]; exact List.mem_singleton_self _
  refine ⟨rfl, C4_validation_guards.1 0 sampleBad [] rfl, hmem, ?_, rfl⟩
  exact C4_validation_guards.2.1 0 (saveEntry 0 samplePlain.toJs []).1 samplePlain.toJs hmem

end ClaimC4

section ClaimC7

open PersistenceManager

/-- C7: persistence round trip.  For every typed entry whose serialized
form passes the structural validator, and every prior store content,
`retrieveEntry(e.id)` right after `saveEntry(e)` returns a value
deep-equal to the entry's serialized form — including the corner case
`e.id = "INDEX"`, where the entry key collides with the index record's
key, `updateMemoryIndex` throws before overwriting it, and the stored
entry still reads back intact. -/
theorem C7_round_trip (e : MemoryEntry) (s : Store) (now : ℤ)
    (hval : validateEntry e.toJs = true) :
    retrieveEntry e.id (saveEntry now e.toJs s).1 = some e.toJs := by
  simp only [saveEntry, hval, not_true, if_false, toJs_getField_id, jsFieldToStr,
    jsTemplateStr, Option.getD_some]
  by_cases hid : e.id = "INDEX"
  · rw [hid]
    have hkey : STORAGE_KEY_STEM ++ "INDEX" = METADATA_KEY := rfl
    have hs1 : getItem (setItem s (STORAGE_KEY_STEM ++ "INDEX") e.toJs) METADATA_KEY
        = some e.toJs := by
      rw [← hkey]; exact getItem_setItem_self _ _ _
    have hidx : (getMemoryIndex now
        (setItem s (STORAGE_KEY_STEM ++ "INDEX") e.toJs)).getField "entryIds" = none := by
      simp only [getMemoryIndex, hs1]
      exact toJs_getField_entryIds e
    simp only [updateMemoryIndex, hidx]
    simp only [retrieveEntry]
    rw [show getItem (setItem s (STORAGE_KEY_STEM ++ "INDEX") e.toJs)
        (STORAGE_KEY_STEM ++ "INDEX") = some e.toJs from getItem_setItem_self _ _ _]
    simp [hval]
  · have hkeys : STORAGE_KEY_STEM ++ e.id ≠ METADATA_KEY := by
      intro h
      apply hid
      have hkey : METADATA_KEY = STORAGE_KEY_STEM ++ "INDEX" := rfl
      exact string_append_left_cancel (h.trans hkey)
    have hs1 : getItem (setItem s (STORAGE_KEY_STEM ++ e.id) e.toJs)
        (STORAGE_KEY_STEM ++ e.id) = some e.toJs := getItem_setItem_self _ _ _
    rcases updateMemoryIndex_store now (.str e.id)
        (setItem s (STORAGE_KEY_STEM ++ e.id) e.toJs) with h | ⟨w, h⟩
    · rw [h]
      simp only [retrieveEntry]
      rw [hs1]
      simp [hval]
    · rw [h]
      simp only [retrieveEntry]
      rw [getItem_setItem_ne _ _ _ _ hkeys, hs1]
      simp [hval]

/-- C7 witness: the round trip applied to a concrete valid entry over the
empty store. -/
theorem C7_round_trip_witness :
    validateEntry samplePlain.toJs = true ∧
    retrieveEntry samplePlain.id (saveEntry 3 samplePlain.toJs []).1
      = some samplePlain.toJs :=
  ⟨rfl, C7_round_trip samplePlain [] 3 rfl⟩

end ClaimC7

section ClaimC8

open MemorySystemAsync

/-- C8 (counterexample): the claim says an explicitly supplied `duration`
override is stored.  `recordTask` hard-codes `duration: 0` at entry
construction and then unconditionally overwrites it with the wall-clock
delta, never reading `metadata.duration`: with a supplied duration of
`120` and a wall-clock delta of `7`, the stored duration is `7`. -/
theorem C8_duration_override_counterexample :
    duration120.duration = some 120 ∧
    (recordTaskEntry "x" 0 7 "Deploy build" (.obj []) duration120).metadata.duration = 7 ∧
    (7 : ℤ) ≠ 120 ∧
    ((recordTask "x" 0 7 "Deploy build" (.obj []) duration120 ⟨[], []⟩).1.entries.map
      (fun e => e.metadata.duration)) = [7] :=
  ⟨rfl, rfl, by decide, rfl⟩

/-- C8 (amended): `recordTask` always sets the stored entry's
`metadata.duration` to the wall-clock delta measured across the call,
ignoring any supplied `duration` override; the other defaults hold as
claimed: `success` defaults to `true` (a supplied value is honoured),
`tags` to `[]`, `priority` to `5`; and when the call succeeds the
constructed entry is exactly what is appended to the working set. -/
theorem C8_recordTask_duration_wallclock (id : String) (now elapsed : ℤ)
    (task : String) (result : JsVal) (metadata : MetaOverrides) (st : AsyncState) :
    (recordTaskEntry id now elapsed task result metadata).metadata.duration = elapsed ∧
    (recordTaskEntry id now elapsed task result metadata).metadata.success
      = metadata.success.getD true ∧
    (recordTaskEntry id now elapsed task result metadata).metadata.tags
      = some (metadata.tags.getD []) ∧
    (recordTaskEntry id now elapsed task result metadata).metadata.priority
      = metadata.priority.getD 5 ∧
    (∀ (st' : AsyncState) (rid : String),
      recordTask id now elapsed task result metadata st = (st', some rid) →
      st'.entries = st.entries ++ [recordTaskEntry id now elapsed task result metadata] ∧
      rid = id) := by
  refine ⟨rfl, rfl, rfl, rfl, ?_⟩
  intro st' rid h
  simp only [recordTask] at h
  split at h
  · injection h with h1 h2
    exact absurd h2 (by simp)
  · split at h
    · injection h with h1 h2
      injection h2 with h3
      rw [← h1, ← h3]
      exact ⟨rfl, rfl⟩
    · injection h with h1 h2
      exact absurd h2 (by simp)

/-- C8 witness: the append clause applied to a concrete successful
`recordTask` call on an initialized empty facade. -/
theorem C8_recordTask_duration_wallclock_witness :
    (recordTask "x" 0 7 "Deploy build" (.obj []) duration120 ⟨[], []⟩).1.entries
      = [] ++ [recordTaskEntry "x" 0 7 "Deploy build" (.obj []) duration120] ∧
    ("x" : String) = "x" := by
  exact (C8_recordTask_duration_wallclock "x" 0 7 "Deploy build" (.obj []) duration120
    ⟨[], []⟩).2.2.2.2 (recordTask "x" 0 7 "Deploy build" (.obj []) duration120 ⟨[], []⟩).1
    "x" rfl

end ClaimC8

namespace MemorySystemSync

theorem record_evict (maxE : ℕ) (c : RecordCall) (st : MemState)
    (e0 : String × MemoryEntry) (tail : List (String × MemoryEntry))
    (hstor : st.storage = e0 :: tail)
    (hfull : maxE ≤ st.storage.length)
    (hold : ∀ p ∈ tail, ¬ p.2.timestamp < e0.2.timestamp)
    (htail : ∀ p ∈ tail, p.1 ≠ e0.1)
    (hcfresh : ∀ p ∈ tail, p.1 ≠ c.id)
    (hdfresh : ∀ p ∈ removeItem st.disk (STORAGE_KEY_STEM ++ e0.1),
      p.1 ≠ STORAGE_KEY_STEM ++ c.id) :
    record maxE c st =
      ⟨tail ++ [(c.id, recordEntry c)],
       removeItem st.disk (STORAGE_KEY_STEM ++ e0.1) ++
         [(STORAGE_KEY_STEM ++ c.id, (recordEntry c).toJs)]⟩ := by
  have hpr : prune maxE st = ⟨tail, removeItem st.disk (STORAGE_KEY_STEM ++ e0.1)⟩ := by
    unfold prune
    rw [if_pos (by omega)]
    rw [hstor]
    simp only
    rw [foldl_oldest e0 tail hold]
    have hfilter : (e0 :: tail).filter (fun p => ¬ p.1 == e0.1) = tail := by
      rw [List.filter_cons]
      rw [if_neg (by simp)]
      exact List.filter_eq_self.mpr (fun p hp => by
        simpa using htail p hp)
    rw [hfilter]
  simp only [record, hpr, recordEntry_id]
  rw [mapSet_fresh _ _ _ hcfresh]
  rw [setItem_fresh _ _ _ hdfresh]

end MemorySystemSync

section ClaimC1

open MemorySystemSync

/-- C1: capacity-bound eviction.  Starting from an empty facade with
capacity `maxE` (the source constant `MAX_ENTRIES`), recording `maxE + 1`
entries with fresh ids and strictly increasing timestamps leaves exactly
`maxE` entries: the surviving working set and disk copy are exactly the
ones of the later `maxE` calls, in order, and the first call — the one
with the smallest timestamp — is the single absent one, evicted from both
the working set and the persistence layer before the final entry was
admitted. -/
theorem C1_capacity_eviction (maxE : ℕ) (c0 : RecordCall) (rest : List RecordCall)
    (hmax : 1 ≤ maxE) (hlen : rest.length = maxE)
    (hids : ((c0 :: rest).map (fun c => c.id)).Nodup)
    (hts : (c0 :: rest).Pairwise (fun a b => a.now < b.now)) :
    (recordMany maxE (c0 :: rest) initState).storage.map Prod.fst
      = rest.map (fun c => c.id) ∧
    (recordMany maxE (c0 :: rest) initState).storage.length = maxE ∧
    c0.id ∉ (recordMany maxE (c0 :: rest) initState).storage.map Prod.fst ∧
    (recordMany maxE (c0 :: rest) initState).disk.map Prod.fst
      = rest.map (fun c => STORAGE_KEY_STEM ++ c.id) ∧
    (STORAGE_KEY_STEM ++ c0.id) ∉
      (recordMany maxE (c0 :: rest) initState).disk.map Prod.fst ∧
    (recordMany maxE (c0 :: rest) initState).storage.map (fun p => p.2.timestamp)
      = rest.map (fun c => c.now) := by
  have hne : rest ≠ [] := by
    intro h
    rw [h] at hlen
    simp at hlen
    omega
  have hsplitrest := List.dropLast_append_getLast hne
  set lastC := rest.getLast hne with hlastC
  set mid := rest.dropLast with hmid
  have hsplit : c0 :: rest = (c0 :: mid) ++ [lastC] := by
    rw [List.cons_append, hsplitrest]
  have hmidlen : (c0 :: mid).length = maxE := by
    simp [hmid, List.length_dropLast]
    omega
  have hmidsub : List.Sublist mid rest := by
    rw [hmid]; exact List.dropLast_sublist rest
  have hsubinit : List.Sublist (c0 :: mid) (c0 :: rest) := List.Sublist.cons₂ _ hmidsub
  have hidsinit : ((c0 :: mid).map (fun c => c.id)).Nodup :=
    List.Nodup.sublist (hsubinit.map _) hids
  have hts0 : ∀ b ∈ rest, c0.now < b.now := (List.pairwise_cons.mp hts).1
  have hidne : ∀ b ∈ rest, c0.id ≠ b.id := by
    intro b hb heq
    apply (List.nodup_cons.mp hids).1
    show c0.id ∈ rest.map (fun c => c.id)
    rw [heq]
    exact List.mem_map_of_mem _ hb
  have hrestids : (rest.map (fun c => c.id)).Nodup := (List.nodup_cons.mp hids).2
  have hrestsplit : rest.map (fun c => c.id)
      = mid.map (fun c => c.id) ++ [lastC.id] := by
    conv_lhs => rw [← hsplitrest]
    simp
  have hlastfresh : ∀ b ∈ mid, b.id ≠ lastC.id := by
    intro b hb heq
    have hnd : (mid.map (fun c => c.id) ++ [lastC.id]).Nodup := by
      rw [← hrestsplit]; exact hrestids
    rcases List.nodup_append.mp hnd with ⟨_, _, hdisj⟩
    exact hdisj (List.mem_map_of_mem _ hb) (by simp [heq])
  have h1 := recordMany_no_evict maxE (c0 :: mid) initState
      (by simp only [initState, List.length_nil]; omega)
      (by intro c hc p hp; simp [initState] at hp)
      (by intro c hc p hp; simp [initState] at hp)
      hidsinit
  simp only [initState, List.nil_append] at h1
  have hsplitrec : recordMany maxE (c0 :: rest) initState
      = record maxE lastC (recordMany maxE (c0 :: mid) initState) := by
    rw [hsplit]
    unfold recordMany
    rw [List.foldl_append]
    rfl
  have hrem : removeItem
      ((c0 :: mid).map (fun c => (STORAGE_KEY_STEM ++ c.id, (recordEntry c).toJs)))
      (STORAGE_KEY_STEM ++ c0.id)
      = mid.map (fun c => (STORAGE_KEY_STEM ++ c.id, (recordEntry c).toJs)) := by
    simp only [List.map_cons, removeItem, List.filter_cons]
    rw [if_neg (by simp)]
    apply List.filter_eq_self.mpr
    intro p hp
    obtain ⟨c, hc, rfl⟩ := List.mem_map.mp hp
    simp only [decide_eq_true_eq]
    intro heq
    have heq2 : STORAGE_KEY_STEM ++ c.id = STORAGE_KEY_STEM ++ c0.id := by
      simpa using heq
    exact hidne c (hmidsub.subset hc) (string_append_left_cancel heq2).symm
  have hev := record_evict maxE lastC
      ⟨(c0 :: mid).map (fun c => (c.id, recordEntry c)),
       (c0 :: mid).map (fun c => (STORAGE_KEY_STEM ++ c.id, (recordEntry c).toJs))⟩
      (c0.id, recordEntry c0) (mid.map (fun c => (c.id, recordEntry c)))
      (by simp)
      (by simp only [List.length_map]; omega)
      (by
        intro p hp
        obtain ⟨c, hc, rfl⟩ := List.mem_map.mp hp
        have hlt := hts0 c (hmidsub.subset hc)
        simp only [recordEntry_timestamp]
        omega)
      (by
        intro p hp
        obtain ⟨c, hc, rfl⟩ := List.mem_map.mp hp
        exact fun heq => hidne c (hmidsub.subset hc) heq.symm)
      (by
        intro p hp
        obtain ⟨c, hc, rfl⟩ := List.mem_map.mp hp
        exact hlastfresh c hc)
      (by
        intro p hp
        rw [hrem] at hp
        obtain ⟨c, hc, rfl⟩ := List.mem_map.mp hp
        intro heq
        exact hlastfresh c hc (string_append_left_cancel heq))
  dsimp only at hev
  rw [hrem] at hev
  rw [hsplitrec]
  simp only [initState]
  rw [h1, hev]
  have hstorfin : mid.map (fun c => (c.id, recordEntry c)) ++ [(lastC.id, recordEntry lastC)]
      = rest.map (fun c => (c.id, recordEntry c)) := by
    conv_rhs => rw [← hsplitrest]
    simp
  have hdiskfin : mid.map (fun c => (STORAGE_KEY_STEM ++ c.id, (recordEntry c).toJs)) ++
      [(STORAGE_KEY_STEM ++ lastC.id, (recordEntry lastC).toJs)]
      = rest.map (fun c => (STORAGE_KEY_STEM ++ c.id, (recordEntry c).toJs)) := by
    conv_rhs => rw [← hsplitrest]
    simp
  simp only [hstorfin, hdiskfin]
  refine ⟨by simp [List.map_map], by simp [hlen], ?_, by simp [List.map_map], ?_,
    by simp [List.map_map, recordEntry_timestamp]⟩
  · intro hmem
    simp only [List.map_map] at hmem
    obtain ⟨c, hc, heq⟩ := List.mem_map.mp hmem
    exact hidne c hc heq.symm
  · intro hmem
    simp only [List.map_map] at hmem
    obtain ⟨c, hc, heq⟩ := List.mem_map.mp hmem
    exact hidne c hc (string_append_left_cancel heq).symm

/-- C1 witness: capacity 2, three record calls with ids `a`, `b`, `c` and
timestamps `1 < 2 < 3`: the facade ends with exactly the two later
entries, the first one evicted from working set and disk. -/
theorem C1_capacity_eviction_witness :
    (recordMany 2 [sampleCallA, sampleCallB, sampleCallC] initState).storage.map Prod.fst
      = [sampleCallB, sampleCallC].map (fun c => c.id) ∧
    (recordMany 2 [sampleCallA, sampleCallB, sampleCallC] initState).storage.length = 2 ∧
    sampleCallA.id ∉
      (recordMany 2 [sampleCallA, sampleCallB, sampleCallC] initState).storage.map Prod.fst := by
  have h := C1_capacity_eviction 2 sampleCallA [sampleCallB, sampleCallC]
    (by decide) (by decide) (by decide)
    (by decide)
  exact ⟨h.1, h.2.1, h.2.2.1⟩

end ClaimC1
